import Mathlib

/-!
Shallow embedding of the Cricket Auction Game server (src/server.js).

All monetary and rating values are modelled as exact rationals; the
JavaScript rounding helpers toFixed(2) followed by parseFloat, and
Math.round(x * 100) / 100, are modelled by round2 below (both round to the
nearest hundredth with ties upward, which agrees with the source on the
non-negative values they are applied to).

A room is modelled by the Room structure; the team map (a JS object keyed
by user id, iterated in insertion order) is an association list.  The
countdown interval handle and the deferred next-item timeout handle are
modelled by the booleans timer and nextPlayerTimeout (whether such a task
is pending); the passage of a timer second and the firing of the deferred
action are explicit operations.  The wall-clock field lastActivity is
carried as an opaque integer; its updates to the current time are not
modelled.
-/

namespace CricketAuction

/-- MAX_SQUAD_SIZE from server.js line 116. -/
def MAX_SQUAD_SIZE : Nat := 25

/-- MIN_SQUAD_TO_PLAY from server.js line 117. -/
def MIN_SQUAD_TO_PLAY : Nat := 18

/-- PLAYING_11_SIZE from server.js line 118. -/
def PLAYING_11_SIZE : Nat := 11

/-- MAX_OVERSEAS_SQUAD from server.js line 119. -/
def MAX_OVERSEAS_SQUAD : Nat := 8

/-- MAX_OVERSEAS_P11 from server.js line 120. -/
def MAX_OVERSEAS_P11 : Nat := 4

/-- BID_INCREMENT = 0.25 from server.js line 121. -/
def BID_INCREMENT : ℚ := 1/4

/-- JavaScript Math.round: round to the nearest integer, ties toward positive
infinity; equal to the floor of x + 1/2. -/
def jsround (x : ℚ) : ℤ := ⌊x + 1/2⌋

/-- Rounding to two decimal places, as performed by
parseFloat(v.toFixed(2)) and by Math.round(v * 100) / 100 in the source
(the two agree on the non-negative inputs the source applies them to). -/
def round2 (x : ℚ) : ℚ := ((jsround (x * 100) : ℤ) : ℚ) / 100

/-- An auctionable player from the catalog (players.json after the loader
normalises it); only the fields the auction logic reads are carried. -/
structure CatalogItem where
  id : String
  name : String
  country : String
  rating : ℚ
  basePrice : ℚ
deriving DecidableEq

/-- A purchased player: the catalog item together with the sale price
attached by finishBidding (server.js line 338). -/
structure SquadPlayer where
  item : CatalogItem
  soldPrice : ℚ
deriving DecidableEq

/-- One team of a room (server.js lines 485 to 494). -/
structure Team where
  id : String
  name : String
  purse : ℚ
  squad : List SquadPlayer
  isEliminated : Bool
  isFinishedBidding : Bool
  submitted11 : Bool
  totalScore : ℚ
  playing11 : List SquadPlayer
deriving DecidableEq

/-- The coarse room lifecycle phase. -/
inductive Phase where
  | LOBBY
  | AUCTION
  | SELECTION
  | RESULT
deriving DecidableEq

/-- Per-room auction sub-state (server.js lines 496 to 506).  skippedBy is
the JS Set of voter ids, kept as a duplicate-free list; timer is whether a
countdown interval is currently active. -/
structure AuctionState where
  playerPool : List CatalogItem
  currentPlayerIndex : Nat
  currentBid : ℚ
  currentBidderId : Option String
  biddingOpen : Bool
  phase : Phase
  skippedBy : List String
  timeLeft : ℤ
  timer : Bool
deriving DecidableEq

/-- One game room (server.js lines 481 to 509).  config holds only
startingPurse; nextPlayerTimeout is whether a deferred next-item action is
pending. -/
structure Room where
  hostId : String
  startingPurse : ℚ
  teams : List (String × Team)
  auction : AuctionState
  lastActivity : ℤ
  nextPlayerTimeout : Bool
deriving DecidableEq

/-- Events broadcast or unicast to clients; payloads are reduced to the
fields the claims mention. -/
inductive Event where
  | timerUpdate (t : ℤ)
  | newPlayer (playerId : String) (currentBid : ℚ)
  | bidUpdated (currentBid : ℚ) (bidderId : String) (bidderName : String)
  | playerSold (playerId : String) (price : ℚ) (teamName : String) (eliminated : Bool)
  | playerUnsold (playerId : String)
  | teamsUpdated
  | startSelectionPhase
  | gameOverResults
  | auctionStartedSignal
deriving DecidableEq

/-- Lookup in the team map: room.teams[userId]. -/
def lookupTeam (ts : List (String × Team)) (u : String) : Option Team :=
  (ts.find? (fun p => p.1 == u)).map (fun p => p.2)

/-- room.teams[userId] on a Room. -/
def getTeam (room : Room) (u : String) : Option Team :=
  lookupTeam room.teams u

/-- Rewrite every value of the team map through g (g also sees the key).
JS mutates team objects in place, preserving the iteration order, which a
key-preserving map models. -/
def mapVal (g : String × Team → Team) (ts : List (String × Team)) :
    List (String × Team) :=
  ts.map (fun p => (p.1, g p))

/-- In-place mutation of the team stored under key u. -/
def updateTeam (room : Room) (u : String) (f : Team → Team) : Room :=
  { room with teams := mapVal (fun p => if p.1 == u then f p.2 else p.2) room.teams }

/-- Count of squad members from the overseas category
(squad.filter(p => p.country === "Overseas").length). -/
def overseasCount (squad : List SquadPlayer) : Nat :=
  (squad.filter (fun p => p.item.country == "Overseas")).length

/-- The active-bidder filter of server.js lines 211 to 215 and 704 to 708. -/
def isActiveBidder (t : Team) : Bool :=
  !t.isEliminated && !t.isFinishedBidding && decide (t.squad.length < MAX_SQUAD_SIZE)

/-- Object.values(room.teams).filter(active). -/
def activeBidders (room : Room) : List Team :=
  (room.teams.map (fun p => p.2)).filter isActiveBidder

/-- JS truthiness of the nullable bidder id: null and the empty string are
falsy (the id strings come from sanitizeInput and may be empty). -/
def idTruthy (o : Option String) : Bool :=
  match o with
  | none => false
  | some s => !(s == "")

/-- The elimination test applied to one team by checkEliminations
(server.js line 185): the flag is only ever set, never cleared. -/
def elimCheckTeam (t : Team) : Team :=
  if t.purse < BID_INCREMENT ∧ t.squad.length < MIN_SQUAD_TO_PLAY then
    { t with isEliminated := true }
  else t

/-- checkEliminations (server.js lines 182 to 190). -/
def checkEliminations (room : Room) : Room :=
  { room with teams := mapVal (fun p => elimCheckTeam p.2) room.teams }

/-- endAuctionPhase (server.js lines 192 to 204): clear the countdown, move
to SELECTION, close bidding, announce the selection phase. -/
def endAuctionPhase (room : Room) : Room × List Event :=
  ({ room with auction := { room.auction with
       timer := false, phase := Phase.SELECTION, biddingOpen := false } },
   [Event.startSelectionPhase])

/-- checkAuctionCompletion (server.js lines 206 to 224). -/
def checkAuctionCompletion (room : Room) : Room × List Event :=
  if room.auction.phase = Phase.AUCTION ∧ activeBidders room = [] then
    endAuctionPhase { room with auction := { room.auction with timer := false } }
  else (room, [])

/-- calculateWinner (server.js lines 226 to 236): enter RESULT and publish
the rankings (the ranking payload itself is abstracted). -/
def calculateWinner (room : Room) : Room × List Event :=
  ({ room with auction := { room.auction with phase := Phase.RESULT } },
   [Event.gameOverResults])

/-- startAuctionTimer (server.js lines 248 to 262): reset the countdown to
10 seconds, cancelling any previous interval. -/
def startAuctionTimer (room : Room) : Room :=
  { room with auction := { room.auction with timeLeft := 10, timer := true } }

/-- startNextPlayer (server.js lines 282 to 304). -/
def startNextPlayer (room : Room) : Room × List Event :=
  if room.auction.phase ≠ Phase.AUCTION then (room, [])
  else if h : room.auction.currentPlayerIndex < room.auction.playerPool.length then
    let player := room.auction.playerPool.get ⟨room.auction.currentPlayerIndex, h⟩
    let room1 := { room with auction := { room.auction with
      currentBid := player.basePrice, currentBidderId := none,
      skippedBy := [], biddingOpen := true } }
    (startAuctionTimer room1, [Event.newPlayer player.id player.basePrice])
  else endAuctionPhase room

/-- prepareNext (server.js lines 369 to 395): advance the pool index,
re-check eliminations, broadcast the team list and schedule the next item
(superseding any pending deferred action). -/
def prepareNext (room : Room) : Room × List Event :=
  if room.auction.phase ≠ Phase.AUCTION then (room, [])
  else
    let room1 := checkEliminations
      { room with auction := { room.auction with
          currentPlayerIndex := room.auction.currentPlayerIndex + 1 } }
    ({ room1 with nextPlayerTimeout := true }, [Event.teamsUpdated])

/-- The id of the item at the current pool index (empty when out of range;
the source only reads it for event payloads). -/
def currentItemId (room : Room) : String :=
  match room.auction.playerPool.get? room.auction.currentPlayerIndex with
  | some p => p.id
  | none => ""

/-- finishPlayerUnsold (server.js lines 359 to 367). -/
def finishPlayerUnsold (room : Room) : Room × List Event :=
  let room1 := { room with auction := { room.auction with biddingOpen := false } }
  let res := prepareNext room1
  (res.1, Event.playerUnsold (currentItemId room1) :: res.2)

/-- The sold player pushed onto the squad (server.js line 338); when the
pool index is out of range the JS spread of undefined degenerates to a bare
record, modelled by an empty catalog item. -/
def soldPlayerAt (room : Room) (price : ℚ) : SquadPlayer :=
  match room.auction.playerPool.get? room.auction.currentPlayerIndex with
  | some p => { item := p, soldPrice := price }
  | none =>
      { item := { id := "", name := "", country := "", rating := 0, basePrice := 0 },
        soldPrice := price }

/-- finishBidding (server.js lines 306 to 357).  The winner lookup uses the
raw nullable bidder id (teams[null] is undefined); insufficient funds or a
full squad fall back to the unsold path. -/
def finishBidding (room : Room) : Room × List Event :=
  let room1 := { room with auction := { room.auction with biddingOpen := false } }
  match room1.auction.currentBidderId with
  | none =>
      let res1 := checkAuctionCompletion room1
      let res2 := prepareNext res1.1
      (res2.1, Event.playerUnsold (currentItemId room1) :: (res1.2 ++ res2.2))
  | some winnerUserId =>
    match getTeam room1 winnerUserId with
    | none =>
        let res1 := checkAuctionCompletion room1
        let res2 := prepareNext res1.1
        (res2.1, Event.playerUnsold (currentItemId room1) :: (res1.2 ++ res2.2))
    | some team =>
      let finalPrice := room1.auction.currentBid
      if finalPrice > team.purse then finishPlayerUnsold room1
      else if MAX_SQUAD_SIZE ≤ team.squad.length then finishPlayerUnsold room1
      else
        let room2 := updateTeam room1 winnerUserId (fun t =>
          { t with purse := round2 (t.purse - finalPrice),
                   squad := t.squad ++ [soldPlayerAt room1 finalPrice] })
        let room3 := checkEliminations room2
        let elimFlag := match getTeam room3 winnerUserId with
          | some t2 => t2.isEliminated
          | none => false
        let res1 := checkAuctionCompletion room3
        let res2 := prepareNext res1.1
        (res2.1, Event.playerSold (currentItemId room1) finalPrice team.name elimFlag
                   :: (res1.2 ++ res2.2))

/-- The shared round-closure sequence (server.js lines 267 to 277 and 714
to 724, which are textually identical): cancel the countdown interval,
then finish the round as sold when a truthy leader id exists and as unsold
otherwise. -/
def closeRound (room : Room) : Room × List Event :=
  let room1 := { room with auction := { room.auction with timer := false } }
  if idTruthy room1.auction.currentBidderId then finishBidding room1
  else finishPlayerUnsold room1

/-- One second of the countdown interval (server.js lines 263 to 279): when
no countdown is active nothing happens; otherwise the remaining time drops
by one, a tick is broadcast, and on reaching zero the round closes (sold to
the leader when one exists, else unsold). -/
def timerTick (room : Room) : Room × List Event :=
  if room.auction.timer = false then (room, [])
  else
    let t := room.auction.timeLeft - 1
    let room1 := { room with auction := { room.auction with timeLeft := t } }
    if t ≤ 0 then
      let res := closeRound room1
      (res.1, Event.timerUpdate t :: res.2)
    else (room1, [Event.timerUpdate t])

/-- Position of a phase along the forward order
LOBBY, AUCTION, SELECTION, RESULT. -/
def phaseIdx : Phase → Nat
  | Phase.LOBBY => 0
  | Phase.AUCTION => 1
  | Phase.SELECTION => 2
  | Phase.RESULT => 3

/-- Overwrite only the remaining-seconds field (used to compare the two
round-closure triggers, which differ only in this clock field). -/
def setTL (room : Room) (z : ℤ) : Room :=
  { room with auction := { room.auction with timeLeft := z } }

/-- A room with an armed countdown at z seconds. -/
def armTimer (room : Room) (z : ℤ) : Room :=
  { room with auction := { room.auction with timeLeft := z, timer := true } }

/-- The validation gauntlet of the place-bid handler (server.js lines 646
to 671), folded into one boolean: each conjunct is one early return of the
source, in source order.  An out-of-range pool index makes the handler
throw on reading player.country before any state change, hence counts as a
rejection. -/
def placeBidOk (room : Room) (userId : String) (amount : ℚ) : Bool :=
  room.auction.biddingOpen &&
  (match getTeam room userId with
   | none => false
   | some team =>
     !team.isEliminated && !team.isFinishedBidding &&
     decide (team.squad.length < MAX_SQUAD_SIZE) &&
     decide (room.auction.currentBid + BID_INCREMENT ≤ amount) &&
     decide (amount ≤ team.purse) &&
     (match room.auction.playerPool.get? room.auction.currentPlayerIndex with
      | none => false
      | some player =>
        !(player.country == "Overseas" &&
          decide (MAX_OVERSEAS_SQUAD ≤ overseasCount team.squad))))

/-- The place-bid handler (server.js lines 646 to 684).  On acceptance the
current bid becomes the amount rounded to two decimals, the bidder leads,
the skip set is reset and the countdown restarts at 10 seconds. -/
def placeBid (room : Room) (userId : String) (amount : ℚ) : Room × List Event :=
  if placeBidOk room userId amount then
    let bidderName := match getTeam room userId with
      | some t => t.name
      | none => ""
    let room1 := { room with auction := { room.auction with
      currentBid := round2 amount, currentBidderId := some userId, skippedBy := [] } }
    (startAuctionTimer room1, [Event.bidUpdated (round2 amount) userId bidderName])
  else (room, [])

/-- Set insertion for the skip set (the source guards Set.add with has). -/
def addSkip (l : List String) (u : String) : List String :=
  if u ∈ l then l else l ++ [u]

/-- The room after recording one skip vote (server.js lines 699 to 701). -/
def voteAdded (room : Room) (userId : String) : Room :=
  { room with auction := { room.auction with
      skippedBy := addSkip room.auction.skippedBy userId } }

/-- The skip quorum (server.js lines 710 to 712): one less than the number
of active bidders when a truthy leader exists, else all of them. -/
def requiredSkips (room : Room) : ℤ :=
  if idTruthy room.auction.currentBidderId then ((activeBidders room).length : ℤ) - 1
  else ((activeBidders room).length : ℤ)

/-- The skip-for-me handler (server.js lines 686 to 726). -/
def skipForMe (room : Room) (userId : String) : Room × List Event :=
  if room.auction.biddingOpen = false then (room, [])
  else
    match getTeam room userId with
    | none => (room, [])
    | some team =>
      if team.isEliminated || team.isFinishedBidding then (room, [])
      else
        let room1 := voteAdded room userId
        if requiredSkips room1 ≤ (room1.auction.skippedBy.length : ℤ) ∧
            0 < (activeBidders room1).length then
          closeRound room1
        else (room1, [])

/-- The finish-bidding-for-me handler (server.js lines 614 to 629). -/
def finishBiddingForMe (room : Room) (userId : String) : Room × List Event :=
  match getTeam room userId with
  | none => (room, [])
  | some team =>
    if decide (MIN_SQUAD_TO_PLAY ≤ team.squad.length) && !team.isEliminated then
      let room1 := updateTeam room userId (fun t => { t with isFinishedBidding := true })
      let res := checkAuctionCompletion room1
      (res.1, Event.teamsUpdated :: res.2)
    else (room, [])

/-- getEffectiveRating (server.js lines 754 to 762): the base rating
adjusted by the value factor soldPrice / basePrice and clamped below at
zero.  Rational division by zero yields 0 here whereas JS yields Infinity;
the catalog loader defaults basePrice to 0.2, so a zero base price occurs
only for the error sentinel item, and the clamp makes the result
non-negative either way. -/
def getEffectiveRating (p : SquadPlayer) : ℚ :=
  let factor := p.soldPrice / p.item.basePrice
  let finalRating :=
    if p.item.rating > 88 ∧ factor ≥ 8 then p.item.rating - 5
    else if p.item.rating > 88 ∧ factor < 6 then p.item.rating + 5
    else if p.item.rating < 88 ∧ factor > 6 then p.item.rating - 5
    else if p.item.rating < 88 ∧ factor < 4 then p.item.rating + 5
    else p.item.rating
  max 0 finalRating

/-- team.squad.filter(p => playerIds.includes(p.id)) (server.js line 742). -/
def selectedOf (squad : List SquadPlayer) (playerIds : List String) :
    List SquadPlayer :=
  squad.filter (fun p => playerIds.contains p.item.id)

/-- The validation gauntlet of the submit-playing-11 handler (server.js
lines 732 to 752), folded into one boolean; each conjunct is one early
return of the source, in source order.  Note the source never consults
team.submitted11. -/
def submitOk (room : Room) (userId : String) (playerIds : List String)
    (cId vcId : String) : Bool :=
  match getTeam room userId with
  | none => false
  | some team =>
    let requiredSelection := min PLAYING_11_SIZE team.squad.length
    if playerIds.length ≠ requiredSelection then false
    else
      let selectedPlayers := selectedOf team.squad playerIds
      if selectedPlayers.length ≠ requiredSelection then false
      else if MAX_OVERSEAS_P11 < overseasCount selectedPlayers then false
      else
        (selectedPlayers.find? (fun p => p.item.id == cId)).isSome &&
        (selectedPlayers.find? (fun p => p.item.id == vcId)).isSome &&
        !(cId == vcId)

/-- leadershipBonus (server.js line 771). -/
def leadershipBonus (cEff vcEff : ℚ) : ℚ := cEff * (1/10) + vcEff * (1/10)

/-- The score accumulation of server.js lines 767 to 777: start from the
weighted captain and vice-captain contributions, then fold over the
selected players adding rating plus bonus for everyone else. -/
def lineupScore (selectedPlayers : List SquadPlayer) (captain viceCaptain : SquadPlayer)
    (cId vcId : String) : ℚ :=
  let cEff := getEffectiveRating captain
  let vcEff := getEffectiveRating viceCaptain
  let bonus := leadershipBonus cEff vcEff
  selectedPlayers.foldl
    (fun acc p =>
      if p.item.id ≠ cId ∧ p.item.id ≠ vcId then acc + (getEffectiveRating p + bonus)
      else acc)
    (cEff * 2 + vcEff * (3/2))

/-- A placeholder squad player; only reached under a guard that rules the
default case out. -/
def dummySquadPlayer : SquadPlayer :=
  { item := { id := "", name := "", country := "", rating := 0, basePrice := 0 },
    soldPrice := 0 }

/-- The submit-playing-11 handler (server.js lines 728 to 794).  When the
gauntlet passes, the captain and vice-captain finds are guaranteed to
succeed, so extracting them with a default is faithful. -/
def submitPlaying11 (room : Room) (userId : String) (playerIds : List String)
    (cId vcId : String) : Room × List Event :=
  if submitOk room userId playerIds cId vcId then
    match getTeam room userId with
    | none => (room, [])
    | some team =>
      let selectedPlayers := selectedOf team.squad playerIds
      let captain := (selectedPlayers.find? (fun p => p.item.id == cId)).getD dummySquadPlayer
      let viceCaptain := (selectedPlayers.find? (fun p => p.item.id == vcId)).getD dummySquadPlayer
      let score := round2 (lineupScore selectedPlayers captain viceCaptain cId vcId)
      let room1 := updateTeam room userId (fun t =>
        { t with totalScore := score, submitted11 := true, playing11 := selectedPlayers })
      let activeTeams := (room1.teams.map (fun p => p.2)).filter (fun t => !t.isEliminated)
      if activeTeams.all (fun t => t.submitted11) then calculateWinner room1
      else (room1, [Event.teamsUpdated])
  else (room, [])

/-- The start-auction handler (server.js lines 631 to 644). -/
def startAuction (room : Room) (userId : String) : Room × List Event :=
  if room.hostId ≠ userId then (room, [])
  else if room.auction.phase ≠ Phase.LOBBY then (room, [])
  else
    let room1 := { room with auction := { room.auction with phase := Phase.AUCTION } }
    let res := startNextPlayer room1
    (res.1, Event.auctionStartedSignal :: res.2)

/-- A freshly created team (server.js lines 485 to 494 and 537 to 546). -/
def mkTeam (userId teamName : String) (purse : ℚ) : Team :=
  { id := userId, name := teamName, purse := purse, squad := [],
    isEliminated := false, isFinishedBidding := false, submitted11 := false,
    totalScore := 0, playing11 := [] }

/-- The join-room handler restricted to its room mutation (server.js lines
521 to 570): an unknown identity gets a fresh team with the starting purse,
a known identity reconnects to its existing team; eliminations are then
re-checked. -/
def joinRoom (room : Room) (userId teamName : String) : Room × List Event :=
  let room1 :=
    match getTeam room userId with
    | some _ => room
    | none =>
        { room with teams := room.teams ++ [(userId, mkTeam userId teamName room.startingPurse)] }
  (checkEliminations room1, [Event.teamsUpdated])

/-- The leave-room handler (server.js lines 572 to 604): none means the
room was destroyed (its last team left while hosting). -/
def leaveRoom (room : Room) (userId : String) : Option (Room × List Event) :=
  let room1 := { room with teams := room.teams.filter (fun p => !(p.1 == userId)) }
  if room.hostId == userId then
    match room1.teams with
    | [] => none
    | (k, _) :: _ =>
        let room2 := { room1 with hostId := k }
        let res := checkAuctionCompletion room2
        some (res.1, Event.teamsUpdated :: res.2)
  else
    let res := checkAuctionCompletion room1
    some (res.1, Event.teamsUpdated :: res.2)

/-- The deferred next-item action firing (server.js lines 387 to 394): at
fire time the phase is re-checked; the consumed handle is modelled as
cleared. -/
def nextPlayerFire (room : Room) : Room × List Event :=
  if room.nextPlayerTimeout && decide (room.auction.phase = Phase.AUCTION) then
    startNextPlayer { room with nextPlayerTimeout := false }
  else ({ room with nextPlayerTimeout := false }, [])

/-- The create-room handler restricted to its room construction (server.js
lines 452 to 519): the requested purse is clamped to the range 50 to 500. -/
def createRoom (hostId teamName : String) (requestedPurse : ℚ)
    (pool : List CatalogItem) (now : ℤ) : Room :=
  let hostPurse := max 50 (min 500 requestedPurse)
  { hostId := hostId,
    startingPurse := hostPurse,
    teams := [(hostId, mkTeam hostId teamName hostPurse)],
    auction := { playerPool := pool, currentPlayerIndex := 0, currentBid := 0,
                 currentBidderId := none, biddingOpen := false, phase := Phase.LOBBY,
                 skippedBy := [], timeLeft := 10, timer := false },
    lastActivity := now,
    nextPlayerTimeout := false }

/-- The commands and scheduled actions that can mutate an existing room. -/
inductive Op where
  | placeBid (userId : String) (amount : ℚ)
  | skip (userId : String)
  | finishForMe (userId : String)
  | submit11 (userId : String) (playerIds : List String) (cId vcId : String)
  | startAuction (userId : String)
  | join (userId teamName : String)
  | leave (userId : String)
  | tick
  | nextItem

/-- Dispatch of one inbound command or scheduled action on a room; none
means the room was destroyed. -/
def step (op : Op) (room : Room) : Option (Room × List Event) :=
  match op with
  | Op.placeBid u a => some (placeBid room u a)
  | Op.skip u => some (skipForMe room u)
  | Op.finishForMe u => some (finishBiddingForMe room u)
  | Op.submit11 u ids c vc => some (submitPlaying11 room u ids c vc)
  | Op.startAuction u => some (startAuction room u)
  | Op.join u n => some (joinRoom room u n)
  | Op.leave u => leaveRoom room u
  | Op.tick => some (timerTick room)
  | Op.nextItem => some (nextPlayerFire room)

/-- Room states reachable from room creation through the command and timer
operations. -/
inductive Reachable : Room → Prop where
  | init : ∀ h n p pool now, Reachable (createRoom h n p pool now)
  | next : ∀ r op r2 evs, Reachable r → step op r = some (r2, evs) → Reachable r2

/-- The auction fields of the persisted snapshot (server.js lines 83 to
93): exactly the resumable fields, the skip set as a plain list, and no
interval handle. -/
structure PersistedAuction where
  playerPool : List CatalogItem
  currentPlayerIndex : Nat
  currentBid : ℚ
  currentBidderId : Option String
  biddingOpen : Bool
  phase : Phase
  skippedBy : List String
  timeLeft : ℤ
deriving DecidableEq

/-- The persisted snapshot of one room (server.js lines 79 to 96): host,
configuration, full team map, resumable auction fields and the
last-activity timestamp; the countdown handle and the deferred next-item
handle are excluded. -/
structure PersistedRoom where
  hostId : String
  startingPurse : ℚ
  teams : List (String × Team)
  auction : PersistedAuction
  lastActivity : ℤ
deriving DecidableEq

/-- saveGameData restricted to one room (server.js lines 74 to 98). -/
def saveRoom (room : Room) : PersistedRoom :=
  { hostId := room.hostId,
    startingPurse := room.startingPurse,
    teams := room.teams,
    auction := { playerPool := room.auction.playerPool,
                 currentPlayerIndex := room.auction.currentPlayerIndex,
                 currentBid := room.auction.currentBid,
                 currentBidderId := room.auction.currentBidderId,
                 biddingOpen := room.auction.biddingOpen,
                 phase := room.auction.phase,
                 skippedBy := room.auction.skippedBy,
                 timeLeft := room.auction.timeLeft },
    lastActivity := room.lastActivity }

/-- loadGameData restricted to one room (server.js lines 30 to 47): the
skip set is rebuilt from the list, the interval handle and the deferred
handle are initialised to null, and nothing else happens; in particular no
countdown is started. -/
def loadRoom (p : PersistedRoom) : Room :=
  { hostId := p.hostId,
    startingPurse := p.startingPurse,
    teams := p.teams,
    auction := { playerPool := p.auction.playerPool,
                 currentPlayerIndex := p.auction.currentPlayerIndex,
                 currentBid := p.auction.currentBid,
                 currentBidderId := p.auction.currentBidderId,
                 biddingOpen := p.auction.biddingOpen,
                 phase := p.auction.phase,
                 skippedBy := p.auction.skippedBy,
                 timeLeft := p.auction.timeLeft,
                 timer := false },
    lastActivity := p.lastActivity,
    nextPlayerTimeout := false }

/-- Between two team maps: every team of the first that survives into the
second keeps an already-set eliminated flag, and no team vanishes.  The
second component (domain preservation) makes the relation transitive. -/
def elimMono (ts ts2 : List (String × Team)) : Prop :=
  (∀ u t t2, lookupTeam ts u = some t → lookupTeam ts2 u = some t2 →
     t.isEliminated = true → t2.isEliminated = true) ∧
  (∀ u, (lookupTeam ts u).isSome = true → (lookupTeam ts2 u).isSome = true)

/-- Every stored purse is non-negative. -/
def pursesOk (ts : List (String × Team)) : Prop :=
  ∀ p ∈ ts, 0 ≤ p.2.purse

/-- The state invariant maintained by every room operation: the configured
starting purse is non-negative, the team map has no duplicate keys (it
models a JS object), and every purse is non-negative. -/
def Inv (r : Room) : Prop :=
  0 ≤ r.startingPurse ∧ (r.teams.map Prod.fst).Nodup ∧ pursesOk r.teams

/-! ## Concrete instances used by counterexamples and witnesses -/

/-- A concrete room saved in the middle of a bidding round. -/
def c9Room : Room :=
  { hostId := "h", startingPurse := 100,
    teams := [("h", mkTeam "h" "Hosts" 100)],
    auction := { playerPool := [], currentPlayerIndex := 0, currentBid := 1/2,
                 currentBidderId := some "h", biddingOpen := true,
                 phase := Phase.AUCTION, skippedBy := [], timeLeft := 7, timer := true },
    lastActivity := 0, nextPlayerTimeout := false }

/-- A domestic catalog item with the default base price 0.2. -/
def itemA : CatalogItem :=
  { id := "pA", name := "Player A", country := "India", rating := 80, basePrice := 1/5 }

/-- A second domestic catalog item. -/
def itemB : CatalogItem :=
  { id := "pB", name := "Player B", country := "India", rating := 70, basePrice := 1/5 }

/-- A room whose single team was created with the host-supplied purse
50.996 (create-room clamps the purse only into the range 50 to 500, so a
purse that is not a whole number of hundredths is accepted verbatim) and
whose current bid is the opening base price 0.2. -/
def c1Room : Room :=
  { hostId := "u1", startingPurse := 12749/250,
    teams := [("u1", mkTeam "u1" "Tigers" (12749/250))],
    auction := { playerPool := [itemA], currentPlayerIndex := 0, currentBid := 1/5,
                 currentBidderId := none, biddingOpen := true,
                 phase := Phase.AUCTION, skippedBy := [], timeLeft := 5, timer := true },
    lastActivity := 0, nextPlayerTimeout := false }

/-- The team of c1Room. -/
def c1Team : Team := mkTeam "u1" "Tigers" (12749/250)

/-- A room with a round-number purse, used to exercise an accepted bid
whose amount has more than two decimal places. -/
def c8Room : Room :=
  { hostId := "u1", startingPurse := 100,
    teams := [("u1", mkTeam "u1" "Tigers" 100)],
    auction := { playerPool := [itemA], currentPlayerIndex := 0, currentBid := 1/5,
                 currentBidderId := none, biddingOpen := true,
                 phase := Phase.AUCTION, skippedBy := [], timeLeft := 5, timer := true },
    lastActivity := 0, nextPlayerTimeout := false }

/-- A room with two fresh active teams, no leader, and one skip vote
already recorded; one more vote reaches the quorum. -/
def c2Room : Room :=
  { hostId := "u1", startingPurse := 100,
    teams := [("u1", mkTeam "u1" "Lions" 100), ("u2", mkTeam "u2" "Bears" 100)],
    auction := { playerPool := [itemA, itemB], currentPlayerIndex := 0, currentBid := 1/5,
                 currentBidderId := none, biddingOpen := true,
                 phase := Phase.AUCTION, skippedBy := ["u2"], timeLeft := 6, timer := true },
    lastActivity := 0, nextPlayerTimeout := false }

/-- itemA bought for 1.0 (value factor 5: rating unchanged). -/
def spA : SquadPlayer := { item := itemA, soldPrice := 1 }

/-- itemB bought for 0.5 (value factor 2.5: bargain boost). -/
def spB : SquadPlayer := { item := itemB, soldPrice := 1/2 }

/-- A team that has ALREADY submitted its lineup. -/
def c5Team : Team :=
  { id := "u1", name := "Tigers", purse := 90, squad := [spA, spB],
    isEliminated := false, isFinishedBidding := false, submitted11 := true,
    totalScore := 100, playing11 := [] }

/-- A selection-phase room whose only team has already submitted. -/
def c5Room : Room :=
  { hostId := "u1", startingPurse := 100,
    teams := [("u1", c5Team)],
    auction := { playerPool := [itemA, itemB], currentPlayerIndex := 2, currentBid := 0,
                 currentBidderId := none, biddingOpen := false,
                 phase := Phase.SELECTION, skippedBy := [], timeLeft := 0, timer := false },
    lastActivity := 0, nextPlayerTimeout := false }

/-- A team with a two-player squad that has not yet submitted. -/
def c6Team : Team :=
  { id := "u1", name := "Tigers", purse := 90, squad := [spA, spB],
    isEliminated := false, isFinishedBidding := false, submitted11 := false,
    totalScore := 0, playing11 := [] }

/-- A selection-phase room whose only team has not yet submitted. -/
def c6Room : Room :=
  { hostId := "u1", startingPurse := 100,
    teams := [("u1", c6Team)],
    auction := { playerPool := [itemA, itemB], currentPlayerIndex := 2, currentBid := 0,
                 currentBidderId := none, biddingOpen := false,
                 phase := Phase.SELECTION, skippedBy := [], timeLeft := 0, timer := false },
    lastActivity := 0, nextPlayerTimeout := false }

/-- An eliminated team (bought one player for almost the whole purse while
the squad was far below the minimum playable size). -/
def c7ElimTeam : Team :=
  { id := "u2", name := "Cubs", purse := 1/10, squad := [], isEliminated := true,
    isFinishedBidding := false, submitted11 := false, totalScore := 0, playing11 := [] }

/-- A room still in the AUCTION phase, mid round, in which every team but
one is eliminated and the survivor holds two players. -/
def c7Room : Room :=
  { hostId := "u1", startingPurse := 100,
    teams := [("u1", c6Team), ("u2", c7ElimTeam)],
    auction := { playerPool := [itemA, itemB], currentPlayerIndex := 1, currentBid := 1/2,
                 currentBidderId := none, biddingOpen := true,
                 phase := Phase.AUCTION, skippedBy := [], timeLeft := 5, timer := true },
    lastActivity := 0, nextPlayerTimeout := false }

/-! ## Basic facts about the rounding helper -/

theorem round2_nonneg (x : ℚ) (hx : 0 ≤ x) : 0 ≤ round2 x := by
  unfold round2 jsround
  have h1 : (0:ℤ) ≤ ⌊x * 100 + 1/2⌋ := Int.floor_nonneg.mpr (by linarith)
  have h2 : (0:ℚ) ≤ ((⌊x * 100 + 1/2⌋ : ℤ) : ℚ) := by exact_mod_cast h1
  linarith

theorem round2_le (x : ℚ) : round2 x ≤ x + 1/200 := by
  unfold round2 jsround
  have h1 : ((⌊x * 100 + 1/2⌋ : ℤ) : ℚ) ≤ x * 100 + 1/2 := Int.floor_le _
  linarith

theorem lt_round2 (x : ℚ) : x - 1/200 < round2 x := by
  unfold round2 jsround
  have h1 : x * 100 + 1/2 < ((⌊x * 100 + 1/2⌋ : ℤ) : ℚ) + 1 := Int.lt_floor_add_one _
  linarith

theorem round2_mono {x y : ℚ} (h : x ≤ y) : round2 x ≤ round2 y := by
  unfold round2 jsround
  have h1 : ⌊x * 100 + 1/2⌋ ≤ ⌊y * 100 + 1/2⌋ := Int.floor_le_floor (by linarith)
  have h2 : ((⌊x * 100 + 1/2⌋ : ℤ) : ℚ) ≤ ((⌊y * 100 + 1/2⌋ : ℤ) : ℚ) := by exact_mod_cast h1
  linarith

theorem round2_cent (k : ℤ) : round2 ((k : ℚ) / 100) = (k : ℚ) / 100 := by
  unfold round2 jsround
  have h0 : (k : ℚ) / 100 * 100 = (k : ℚ) := by field_simp
  rw [h0]
  have h1 : ⌊(k : ℚ) + 1/2⌋ = k + ⌊(1/2 : ℚ)⌋ := by
    rw [add_comm, Int.floor_add_int, add_comm]
  have h2 : ⌊(1/2 : ℚ)⌋ = 0 := by
    rw [Int.floor_eq_zero_iff]
    constructor <;> norm_num
  rw [h1, h2, add_zero]

/-! ## Basic facts about the team map -/

theorem lookupTeam_mapVal (g : String × Team → Team) (ts : List (String × Team))
    (u : String) :
    lookupTeam (mapVal g ts) u = (ts.find? (fun p => p.1 == u)).map g := by
  induction ts with
  | nil => rfl
  | cons hd tl ih =>
      by_cases h : hd.1 == u
      · simp [lookupTeam, mapVal, List.find?, h]
      · simp only [lookupTeam, mapVal, List.map_cons, List.find?, h, Bool.false_eq_true,
          if_false] at *
        simpa [h] using ih

theorem lookupTeam_def (ts : List (String × Team)) (u : String) :
    lookupTeam ts u = (ts.find? (fun p => p.1 == u)).map (fun p => p.2) := rfl

theorem lookupTeam_isSome_mapVal (g : String × Team → Team) (ts : List (String × Team))
    (u : String) :
    (lookupTeam (mapVal g ts) u).isSome = (lookupTeam ts u).isSome := by
  rw [lookupTeam_mapVal, lookupTeam_def]
  cases ts.find? (fun p => p.1 == u) <;> rfl

theorem keys_mapVal (g : String × Team → Team) (ts : List (String × Team)) :
    (mapVal g ts).map Prod.fst = ts.map Prod.fst := by
  simp [mapVal, Function.comp]

theorem lookupTeam_append_of_some (ts l : List (String × Team)) (u : String) (t : Team)
    (h : lookupTeam ts u = some t) : lookupTeam (ts ++ l) u = some t := by
  induction ts with
  | nil => simp [lookupTeam] at h
  | cons hd tl ih =>
      by_cases h1 : hd.1 == u
      · simp only [lookupTeam, List.find?, h1] at h ⊢
        simpa using h
      · simp only [lookupTeam, List.cons_append, List.find?, h1] at h ⊢
        exact ih h

theorem lookupTeam_filterKey (ts : List (String × Team)) (uid u : String)
    (h : ¬(u = uid)) :
    lookupTeam (ts.filter (fun p => !(p.1 == uid))) u = lookupTeam ts u := by
  induction ts with
  | nil => rfl
  | cons hd tl ih =>
      by_cases h1 : hd.1 == uid
      · have h2 : (hd.1 == u) = false := by
          have e1 : hd.1 = uid := by simpa using h1
          simp [e1]
          intro e2
          exact h e2.symm
        simp only [List.filter, h1, Bool.not_true, lookupTeam, List.find?, h2] at *
        exact ih
      · simp only [List.filter, h1, Bool.not_false, lookupTeam, List.find?] at *
        by_cases h2 : hd.1 == u
        · simp [h2]
        · simp only [h2, Bool.false_eq_true, if_false]
          exact ih

/-- C10 (implicit, server.js lines 754 to 762): for every squad player the
effective rating used in scoring is non-negative, whatever adjustment the
value factor applies, because the result is clamped below at zero. -/
theorem effective_rating_nonneg (p : SquadPlayer) : 0 ≤ getEffectiveRating p := by
  unfold getEffectiveRating
  exact le_max_left 0 _

/-- C9: the persisted snapshot of a room keeps exactly the host identity,
configuration, team map, last-activity timestamp and the resumable auction
fields: reloading a saved room reproduces the room except that the
countdown handle and the deferred next-item handle come back null.
Consequently a room saved mid-round (phase AUCTION with bidding open)
comes back with bidding still open but with NO active countdown: contrary
to the specification, loadGameData never restarts the countdown. -/
theorem snapshot_save_load_spec :
    (∀ r : Room, loadRoom (saveRoom r) =
      { r with auction := { r.auction with timer := false }, nextPlayerTimeout := false }) ∧
    (∀ r : Room, r.auction.phase = Phase.AUCTION → r.auction.biddingOpen = true →
      (loadRoom (saveRoom r)).auction.biddingOpen = true ∧
      (loadRoom (saveRoom r)).auction.timer = false ∧
      (loadRoom (saveRoom r)).auction.timeLeft = r.auction.timeLeft) := by
  constructor
  · intro r; rfl
  · intro r h1 h2; exact ⟨h2, rfl, rfl⟩

theorem snapshot_save_load_spec_witness :
    (loadRoom (saveRoom c9Room)).auction.biddingOpen = true ∧
    (loadRoom (saveRoom c9Room)).auction.timer = false :=
  ⟨(snapshot_save_load_spec.2 c9Room rfl rfl).1,
   (snapshot_save_load_spec.2 c9Room rfl rfl).2.1⟩

/-! ## Round closure ignores the clock field -/

theorem closeRound_setTL (r : Room) (z : ℤ) :
    closeRound (setTL r z) = (setTL (closeRound r).1 z, (closeRound r).2) := by
  rcases hb : r.auction.currentBidderId with _ | w
  · simp only [closeRound, finishBidding, finishPlayerUnsold, prepareNext,
      checkAuctionCompletion, endAuctionPhase, checkEliminations, updateTeam, getTeam,
      activeBidders, currentItemId, soldPlayerAt, setTL, idTruthy, hb]
    split_ifs <;> rfl
  · rcases htm : lookupTeam r.teams w with _ | tm <;>
      simp only [closeRound, finishBidding, finishPlayerUnsold, prepareNext,
        checkAuctionCompletion, endAuctionPhase, checkEliminations, updateTeam, getTeam,
        activeBidders, currentItemId, soldPlayerAt, setTL, idTruthy, hb, htm] <;>
      split_ifs <;> rfl

/-! ## Skip-quorum claim -/

/-- C2: while a round is open, an eligible skip vote closes the round as
soon as the vote count reaches the required-skip threshold (active bidders
minus one when a leader exists, else all active bidders, there being at
least one active bidder), by running exactly the shared round-closure
sequence (sold to the leader when one exists, else unsold); the countdown
expiring on the same post-vote round runs the same closure, producing the
same state except for the clock field (zeroed by the final tick) and the
same events after the tick broadcast.  Below the threshold the vote is
only recorded. -/
theorem skip_quorum_spec (r : Room) (u : String) (t : Team)
    (hopen : r.auction.biddingOpen = true)
    (ht : getTeam r u = some t)
    (he : t.isEliminated = false) (hf : t.isFinishedBidding = false)
    (hab : 0 < (activeBidders (voteAdded r u)).length) :
    (requiredSkips (voteAdded r u) ≤ ((voteAdded r u).auction.skippedBy.length : ℤ) →
       skipForMe r u = closeRound (voteAdded r u) ∧
       timerTick (armTimer (voteAdded r u) 1) =
         (setTL (skipForMe r u).1 0, Event.timerUpdate 0 :: (skipForMe r u).2)) ∧
    (((voteAdded r u).auction.skippedBy.length : ℤ) < requiredSkips (voteAdded r u) →
       skipForMe r u = (voteAdded r u, [])) := by
  have hsf : skipForMe r u =
      (if requiredSkips (voteAdded r u) ≤ ((voteAdded r u).auction.skippedBy.length : ℤ) ∧
          0 < (activeBidders (voteAdded r u)).length then closeRound (voteAdded r u)
       else (voteAdded r u, [])) := by
    unfold skipForMe
    rw [if_neg (by simp [hopen]), ht]
    simp only [he, hf, Bool.or_self, Bool.false_eq_true, if_false]
  constructor
  · intro hq
    have hclose : skipForMe r u = closeRound (voteAdded r u) := by
      rw [hsf, if_pos ⟨hq, hab⟩]
    refine ⟨hclose, ?_⟩
    have htt : timerTick (armTimer (voteAdded r u) 1) =
        ((closeRound (setTL (voteAdded r u) 0)).1,
          Event.timerUpdate 0 :: (closeRound (setTL (voteAdded r u) 0)).2) := rfl
    rw [htt, closeRound_setTL, hclose]
  · intro hlt
    rw [hsf, if_neg ?_]
    rintro ⟨h1, _⟩
    exact absurd h1 (not_le.mpr hlt)

theorem skip_quorum_spec_witness :
    skipForMe c2Room "u1" = closeRound (voteAdded c2Room "u1") ∧
    requiredSkips (voteAdded c2Room "u1") ≤
      ((voteAdded c2Room "u1").auction.skippedBy.length : ℤ) := by
  have h := skip_quorum_spec c2Room "u1" (mkTeam "u1" "Lions" 100)
    rfl rfl rfl rfl (by decide)
  exact ⟨(h.1 (by decide)).1, by decide⟩

/-! ## Place-bid claims -/

/-- C1 counterexample: in a room whose team was created with the purse
50.996, a bid of exactly the purse on the opening item is accepted, and
the stored new current bid 51.00 (the amount rounded to two decimals) is
strictly greater than the purse the bidder had at the time of the bid, so
an accepted bid CAN exceed the purse as stored. -/
theorem placeBid_exceeds_purse_cex :
    placeBidOk c1Room "u1" (12749/250) = true ∧
    getTeam c1Room "u1" = some c1Team ∧
    c1Team.purse < (placeBid c1Room "u1" (12749/250)).1.auction.currentBid := by
  have hok : placeBidOk c1Room "u1" (12749/250) = true := by
    norm_num [placeBidOk, c1Room, getTeam, lookupTeam, mkTeam, itemA, overseasCount,
      MAX_SQUAD_SIZE, MAX_OVERSEAS_SQUAD, BID_INCREMENT, List.find?]
  refine ⟨hok, rfl, ?_⟩
  have hbid : (placeBid c1Room "u1" (12749/250)).1.auction.currentBid =
      round2 (12749/250) := by
    simp [placeBid, hok, startAuctionTimer]
  rw [hbid]
  norm_num [round2, jsround, c1Team, mkTeam]

/-- C1 (amended): placeBid is rejected with no state change and no events
unless the round is open, the team exists, is neither eliminated nor
finished bidding, has squad space, bids at least the current bid plus the
increment, within its purse, and respects the overseas cap when the item
is overseas.  For every accepted bid the raw amount is at least the
previous bid plus the increment and at most the purse; the STORED new bid
is that amount rounded to the nearest hundredth, hence at most the purse
plus 1/200, and when the previous bid is a whole number of hundredths the
stored bid still exceeds it by at least the increment. -/
theorem placeBid_guard_spec (r : Room) (u : String) (a : ℚ) (t : Team)
    (player : CatalogItem)
    (ht : getTeam r u = some t)
    (hp : r.auction.playerPool.get? r.auction.currentPlayerIndex = some player) :
    (placeBidOk r u a = true ↔
      (r.auction.biddingOpen = true ∧ t.isEliminated = false ∧
       t.isFinishedBidding = false ∧ t.squad.length < MAX_SQUAD_SIZE ∧
       r.auction.currentBid + BID_INCREMENT ≤ a ∧ a ≤ t.purse ∧
       (player.country = "Overseas" → overseasCount t.squad < MAX_OVERSEAS_SQUAD))) ∧
    (placeBidOk r u a = false → placeBid r u a = (r, [])) ∧
    (placeBidOk r u a = true →
      (placeBid r u a).1.auction.currentBid = round2 a ∧
      r.auction.currentBid + BID_INCREMENT ≤ a ∧ a ≤ t.purse ∧
      (placeBid r u a).1.auction.currentBid ≤ t.purse + 1/200 ∧
      (∀ k : ℤ, r.auction.currentBid = (k : ℚ) / 100 →
        r.auction.currentBid + BID_INCREMENT ≤ (placeBid r u a).1.auction.currentBid)) := by
  have hiff : placeBidOk r u a = true ↔
      (r.auction.biddingOpen = true ∧ t.isEliminated = false ∧
       t.isFinishedBidding = false ∧ t.squad.length < MAX_SQUAD_SIZE ∧
       r.auction.currentBid + BID_INCREMENT ≤ a ∧ a ≤ t.purse ∧
       (player.country = "Overseas" → overseasCount t.squad < MAX_OVERSEAS_SQUAD)) := by
    unfold placeBidOk
    rw [ht, hp]
    simp only [Bool.and_eq_true, Bool.not_eq_true', decide_eq_true_eq, beq_iff_eq,
      Bool.and_eq_false_iff, decide_eq_false_iff_not, not_le,
      beq_eq_false_iff_ne, ne_eq]
    tauto
  refine ⟨hiff, ?_, ?_⟩
  · intro h
    simp [placeBid, h]
  · intro h
    have hc := hiff.mp h
    have hbid : (placeBid r u a).1.auction.currentBid = round2 a := by
      simp [placeBid, h, startAuctionTimer]
    refine ⟨hbid, hc.2.2.2.2.1, hc.2.2.2.2.2.1, ?_, ?_⟩
    · rw [hbid]
      have := round2_le a
      have := hc.2.2.2.2.2.1
      linarith
    · intro k hk
      rw [hbid]
      have h25 : r.auction.currentBid + BID_INCREMENT = ((k + 25 : ℤ) : ℚ) / 100 := by
        rw [hk]
        unfold BID_INCREMENT
        push_cast
        ring
      have hmono : round2 (r.auction.currentBid + BID_INCREMENT) ≤ round2 a :=
        round2_mono hc.2.2.2.2.1
      have hfix : round2 (r.auction.currentBid + BID_INCREMENT) =
          r.auction.currentBid + BID_INCREMENT := by
        rw [h25]
        exact round2_cent (k + 25)
      linarith [hmono, hfix.symm.le, hfix.le]

theorem placeBid_guard_spec_witness :
    placeBidOk c8Room "u1" (1/2) = true ∧
    (placeBid c8Room "u1" (1/2)).1.auction.currentBid = round2 (1/2) := by
  have hok : placeBidOk c8Room "u1" (1/2) = true := by
    norm_num [placeBidOk, c8Room, getTeam, lookupTeam, mkTeam, itemA, overseasCount,
      MAX_SQUAD_SIZE, MAX_OVERSEAS_SQUAD, BID_INCREMENT, List.find?]
  exact ⟨hok,
    ((placeBid_guard_spec c8Room "u1" (1/2) (mkTeam "u1" "Tigers" 100) itemA
      rfl rfl).2.2 hok).1⟩

/-- C8 counterexample: an accepted bid of 0.456 (three decimal places) is
stored as 0.46, so the current bid is NOT updated to the bid amount
itself. -/
theorem placeBid_rounds_amount_cex :
    placeBidOk c8Room "u1" (57/125) = true ∧
    (placeBid c8Room "u1" (57/125)).1.auction.currentBid ≠ (57/125 : ℚ) := by
  have hok : placeBidOk c8Room "u1" (57/125) = true := by
    norm_num [placeBidOk, c8Room, getTeam, lookupTeam, mkTeam, itemA, overseasCount,
      MAX_SQUAD_SIZE, MAX_OVERSEAS_SQUAD, BID_INCREMENT, List.find?]
  refine ⟨hok, ?_⟩
  have hbid : (placeBid c8Room "u1" (57/125)).1.auction.currentBid =
      round2 (57/125) := by
    simp [placeBid, hok, startAuctionTimer]
  rw [hbid]
  norm_num [round2, jsround]

/-- C8 (amended): for every accepted bid the current bid is updated to the
bid amount rounded to the nearest hundredth, the bidder becomes the
leader, the skip set is reset to empty, and the countdown is restarted at
10 seconds. -/
theorem placeBid_effects_spec (r : Room) (u : String) (a : ℚ)
    (h : placeBidOk r u a = true) :
    (placeBid r u a).1.auction.currentBid = round2 a ∧
    (placeBid r u a).1.auction.currentBidderId = some u ∧
    (placeBid r u a).1.auction.skippedBy = [] ∧
    (placeBid r u a).1.auction.timeLeft = 10 ∧
    (placeBid r u a).1.auction.timer = true := by
  simp [placeBid, h, startAuctionTimer]

theorem placeBid_effects_spec_witness :
    (placeBid c8Room "u1" (9/20)).1.auction.currentBidderId = some "u1" ∧
    (placeBid c8Room "u1" (9/20)).1.auction.timeLeft = 10 := by
  have hok : placeBidOk c8Room "u1" (9/20) = true := by
    norm_num [placeBidOk, c8Room, getTeam, lookupTeam, mkTeam, itemA, overseasCount,
      MAX_SQUAD_SIZE, MAX_OVERSEAS_SQUAD, BID_INCREMENT, List.find?]
  exact ⟨(placeBid_effects_spec c8Room "u1" (9/20) hok).2.1,
    (placeBid_effects_spec c8Room "u1" (9/20) hok).2.2.2.1⟩

/-! ## Lineup submission claims -/

theorem selected_ids (sq : List SquadPlayer) (ids : List String) :
    (selectedOf sq ids).map (fun p => p.item.id) =
      (sq.map (fun p => p.item.id)).filter (fun i => ids.contains i) := by
  unfold selectedOf
  induction sq with
  | nil => rfl
  | cons hd tl ih =>
      rw [List.map_cons, List.filter_cons, List.filter_cons]
      by_cases h : ids.contains hd.item.id = true
      · rw [if_pos h, if_pos h, List.map_cons, ih]
      · rw [if_neg h, if_neg h, ih]

theorem filter_mem_length_eq (S P : List String) (hS : S.Nodup) :
    (S.filter (fun i => P.contains i)).length = P.length ↔
      (P.Nodup ∧ ∀ i ∈ P, i ∈ S) := by
  have hmemF : ∀ i, i ∈ S.filter (fun j => P.contains j) ↔ (i ∈ S ∧ i ∈ P) := by
    intro i
    simp [List.mem_filter]
  have hFnd : (S.filter (fun j => P.contains j)).Nodup := hS.filter _
  constructor
  · intro hlen
    have hsubPF : (S.filter (fun j => P.contains j)).toFinset ⊆ P.toFinset := by
      intro i hi
      rw [List.mem_toFinset] at hi ⊢
      exact ((hmemF i).mp hi).2
    have hcardF : (S.filter (fun j => P.contains j)).toFinset.card =
        (S.filter (fun j => P.contains j)).length := List.toFinset_card_of_nodup hFnd
    have hle1 : P.toFinset.card ≤ P.length := List.toFinset_card_le P
    have hle2 : (S.filter (fun j => P.contains j)).toFinset.card ≤ P.toFinset.card :=
      Finset.card_le_card hsubPF
    have hPcard : P.toFinset.card = P.length := by omega
    have hPnd : P.Nodup := by
      have h3 : ((P : Multiset String)).toFinset.card = Multiset.card (P : Multiset String) := by
        simpa using hPcard
      simpa using Multiset.toFinset_card_eq_card_iff_nodup.mp h3
    refine ⟨hPnd, ?_⟩
    have hsetEq : (S.filter (fun j => P.contains j)).toFinset = P.toFinset :=
      Finset.eq_of_subset_of_card_le hsubPF (by omega)
    intro i hiP
    have h4 : i ∈ (S.filter (fun j => P.contains j)).toFinset := by
      rw [hsetEq, List.mem_toFinset]
      exact hiP
    rw [List.mem_toFinset] at h4
    exact ((hmemF i).mp h4).1
  · rintro ⟨hPnd, hsub⟩
    have hsetEq : (S.filter (fun j => P.contains j)).toFinset = P.toFinset := by
      ext i
      rw [List.mem_toFinset, List.mem_toFinset, hmemF i]
      exact ⟨fun h => h.2, fun h => ⟨hsub i h, h⟩⟩
    calc (S.filter (fun j => P.contains j)).length
        = (S.filter (fun j => P.contains j)).toFinset.card :=
          (List.toFinset_card_of_nodup hFnd).symm
      _ = P.toFinset.card := by rw [hsetEq]
      _ = P.length := List.toFinset_card_of_nodup hPnd

theorem selected_length_iff (sq : List SquadPlayer) (ids : List String)
    (hnd : (sq.map (fun p => p.item.id)).Nodup) :
    (selectedOf sq ids).length = ids.length ↔
      (ids.Nodup ∧ ∀ i ∈ ids, i ∈ sq.map (fun p => p.item.id)) := by
  have hlen : (selectedOf sq ids).length =
      ((sq.map (fun p => p.item.id)).filter (fun i => ids.contains i)).length := by
    rw [← selected_ids]
    exact (List.length_map _ _).symm
  rw [hlen]
  exact filter_mem_length_eq _ _ hnd

theorem find_selected_isSome (sq : List SquadPlayer) (ids : List String) (x : String)
    (hsub : ∀ i ∈ ids, i ∈ sq.map (fun p => p.item.id)) :
    ((selectedOf sq ids).find? (fun p => p.item.id == x)).isSome = true ↔ x ∈ ids := by
  rw [List.find?_isSome]
  constructor
  · rintro ⟨p, hp, hpx⟩
    have hx : p.item.id = x := by simpa using hpx
    have hmem := (List.mem_filter.mp hp).2
    rw [hx] at hmem
    simpa using hmem
  · intro hx
    obtain ⟨p, hpSq, hpid⟩ := List.mem_map.mp (hsub x hx)
    refine ⟨p, ?_, by simp [hpid]⟩
    unfold selectedOf
    rw [List.mem_filter]
    exact ⟨hpSq, by simp [hpid, hx]⟩

theorem lookupTeam_update (ts : List (String × Team)) (u : String) (f : Team → Team)
    (t : Team) (h : lookupTeam ts u = some t) :
    lookupTeam (mapVal (fun p => if p.1 == u then f p.2 else p.2) ts) u = some (f t) := by
  rw [lookupTeam_mapVal]
  rcases hf : ts.find? (fun p => p.1 == u) with _ | pr
  · rw [lookupTeam_def, hf] at h
    simp at h
  · rw [lookupTeam_def, hf] at h
    have hkey : (pr.1 == u) = true := by simpa using List.find?_some hf
    have hpr : pr.2 = t := by simpa using h
    rw [hf]
    show some (if pr.1 == u then f pr.2 else pr.2) = some (f t)
    rw [if_pos hkey, hpr]

/-- getTeam after updateTeam at the same key. -/
theorem getTeam_updateTeam (r : Room) (u : String) (f : Team → Team) (t : Team)
    (h : getTeam r u = some t) : getTeam (updateTeam r u f) u = some (f t) :=
  lookupTeam_update r.teams u f t h

/-- C5 counterexample: the submit-playing-11 handler never consults the
submitted-lineup flag, so a team that has already submitted can submit
again: the resubmission passes the whole validation gauntlet and the team
state changes (its stored lineup is replaced). -/
theorem submit_resubmission_accepted_cex :
    c5Team.submitted11 = true ∧
    submitOk c5Room "u1" ["pA", "pB"] "pA" "pB" = true ∧
    (getTeam (submitPlaying11 c5Room "u1" ["pA", "pB"] "pA" "pB").1 "u1").map
        (fun t => t.playing11.length) = some 2 ∧
    c5Team.playing11.length = 0 := by
  refine ⟨rfl, by decide, by decide, rfl⟩

/-- C5 (amended): submitLineup is rejected with no change to any state
unless all of the following hold: the team exists, the selection is a
duplicate-free list of exactly min(11, squad size) ids all belonging to
the squad, the captain and vice-captain are distinct and both selected,
and the selection holds at most 4 overseas players.  The source does NOT
require that the team has not already submitted: a resubmission passing
these checks is accepted and overwrites the stored lineup and score. -/
theorem submit_guard_spec (r : Room) (u : String) (ids : List String) (c vc : String)
    (t : Team) (ht : getTeam r u = some t)
    (hnd : (t.squad.map (fun p => p.item.id)).Nodup) :
    (submitOk r u ids c vc = true ↔
      (ids.Nodup ∧ ids.length = min PLAYING_11_SIZE t.squad.length ∧
       (∀ i ∈ ids, i ∈ t.squad.map (fun p => p.item.id)) ∧
       overseasCount (selectedOf t.squad ids) ≤ MAX_OVERSEAS_P11 ∧
       c ∈ ids ∧ vc ∈ ids ∧ c ≠ vc)) ∧
    (submitOk r u ids c vc = false → submitPlaying11 r u ids c vc = (r, [])) := by
  refine ⟨?_, ?_⟩
  case refine_2 =>
    intro h
    simp [submitPlaying11, h]
  simp only [submitOk, ht]
  by_cases h1 : ids.length = min PLAYING_11_SIZE t.squad.length
  case neg =>
    rw [if_pos (by simpa using h1)]
    simp only [Bool.false_eq_true, false_iff]
    rintro ⟨-, h2, -⟩
    exact h1 h2
  rw [if_neg (by simpa using h1)]
  by_cases h2 : (selectedOf t.squad ids).length = min PLAYING_11_SIZE t.squad.length
  case neg =>
    rw [if_pos (by simpa using h2)]
    simp only [Bool.false_eq_true, false_iff]
    rintro ⟨hA1, -, hA3, -⟩
    exact h2 (by rw [(selected_length_iff t.squad ids hnd).mpr ⟨hA1, hA3⟩, h1])
  rw [if_neg (by simpa using h2)]
  have hsub : ids.Nodup ∧ ∀ i ∈ ids, i ∈ t.squad.map (fun p => p.item.id) :=
    (selected_length_iff t.squad ids hnd).mp (by rw [h2, h1])
  by_cases h3 : MAX_OVERSEAS_P11 < overseasCount (selectedOf t.squad ids)
  case pos =>
    rw [if_pos h3]
    simp only [Bool.false_eq_true, false_iff]
    rintro ⟨-, -, -, hA4, -⟩
    exact absurd h3 (not_lt.mpr hA4)
  rw [if_neg h3]
  have hcap := find_selected_isSome t.squad ids c hsub.2
  have hvcap := find_selected_isSome t.squad ids vc hsub.2
  simp only [Bool.and_eq_true, hcap, hvcap, Bool.not_eq_true', beq_eq_false_iff_ne, ne_eq]
  constructor
  · rintro ⟨⟨hA5, hA6⟩, hne⟩
    exact ⟨hsub.1, h1, hsub.2, not_lt.mp h3, hA5, hA6, hne⟩
  · rintro ⟨-, -, -, -, hA5, hA6, hne⟩
    exact ⟨⟨hA5, hA6⟩, hne⟩

theorem submit_guard_spec_witness :
    submitOk c6Room "u1" ["pA", "pB"] "pA" "pB" = true :=
  (submit_guard_spec c6Room "u1" ["pA", "pB"] "pA" "pB" c6Team rfl
    (by decide)).1.mpr (by decide)

theorem foldl_score (l : List SquadPlayer) (cId vcId : String) (bonus init : ℚ) :
    l.foldl (fun acc p =>
      if p.item.id ≠ cId ∧ p.item.id ≠ vcId then acc + (getEffectiveRating p + bonus)
      else acc) init =
    init + ((l.filter (fun p => decide (p.item.id ≠ cId ∧ p.item.id ≠ vcId))).map
      (fun p => getEffectiveRating p + bonus)).sum := by
  induction l generalizing init with
  | nil => simp
  | cons hd tl ih =>
      rw [List.foldl_cons, List.filter_cons]
      by_cases h : hd.item.id ≠ cId ∧ hd.item.id ≠ vcId
      · rw [if_pos h, if_pos (by simpa using h), ih, List.map_cons, List.sum_cons]
        ring
      · rw [if_neg h, if_neg (by simpa using h), ih]

/-- C6: for every accepted lineup submission the stored total score is
2 times the effective rating of the captain plus 1.5 times that of the
vice-captain plus, for each remaining selected player, that player's
effective rating plus a leadership bonus of 0.10 times the captain's
effective rating plus 0.10 times the vice-captain's effective rating; the
total is rounded to two decimal places before being stored and the team is
marked submitted. -/
theorem submit_score_formula (r : Room) (u : String) (ids : List String) (c vc : String)
    (t : Team) (cap vcap : SquadPlayer)
    (ht : getTeam r u = some t)
    (hok : submitOk r u ids c vc = true)
    (hcap : (selectedOf t.squad ids).find? (fun p => p.item.id == c) = some cap)
    (hvcap : (selectedOf t.squad ids).find? (fun p => p.item.id == vc) = some vcap) :
    ∃ t2, getTeam (submitPlaying11 r u ids c vc).1 u = some t2 ∧
      t2.totalScore = round2 (getEffectiveRating cap * 2 + getEffectiveRating vcap * (3/2) +
        (((selectedOf t.squad ids).filter
            (fun p => decide (p.item.id ≠ c ∧ p.item.id ≠ vc))).map
          (fun p => getEffectiveRating p +
            (getEffectiveRating cap * (1/10) + getEffectiveRating vcap * (1/10)))).sum) ∧
      t2.submitted11 = true := by
  have hscore : lineupScore (selectedOf t.squad ids) cap vcap c vc =
      getEffectiveRating cap * 2 + getEffectiveRating vcap * (3/2) +
      (((selectedOf t.squad ids).filter
          (fun p => decide (p.item.id ≠ c ∧ p.item.id ≠ vc))).map
        (fun p => getEffectiveRating p +
          (getEffectiveRating cap * (1/10) + getEffectiveRating vcap * (1/10)))).sum := by
    unfold lineupScore leadershipBonus
    rw [foldl_score]
  unfold submitPlaying11
  rw [ht]
  simp only [hok, if_true, hcap, hvcap, Option.getD_some, hscore]
  set g : Team → Team := fun tm =>
    { tm with
      totalScore := round2 (getEffectiveRating cap * 2 + getEffectiveRating vcap * (3/2) +
        (((selectedOf t.squad ids).filter
            (fun p => decide (p.item.id ≠ c ∧ p.item.id ≠ vc))).map
          (fun p => getEffectiveRating p +
            (getEffectiveRating cap * (1/10) + getEffectiveRating vcap * (1/10)))).sum),
      submitted11 := true, playing11 := selectedOf t.squad ids } with hg
  by_cases hall : (((updateTeam r u g).teams.map (fun p => p.2)).filter
      (fun tm => !tm.isEliminated)).all (fun tm => tm.submitted11)
  · rw [if_pos hall]
    exact ⟨g t,
      show getTeam (calculateWinner (updateTeam r u g)).1 u = some (g t) from
        getTeam_updateTeam r u g t ht, rfl, rfl⟩
  · rw [if_neg hall]
    exact ⟨g t, getTeam_updateTeam r u g t ht, rfl, rfl⟩

theorem submit_score_formula_witness :
    ∃ t2, getTeam (submitPlaying11 c6Room "u1" ["pA", "pB"] "pA" "pB").1 "u1" = some t2 ∧
      t2.totalScore = round2 (getEffectiveRating spA * 2 + getEffectiveRating spB * (3/2) +
        (((selectedOf c6Team.squad ["pA", "pB"]).filter
            (fun p => decide (p.item.id ≠ "pA" ∧ p.item.id ≠ "pB"))).map
          (fun p => getEffectiveRating p +
            (getEffectiveRating spA * (1/10) + getEffectiveRating spB * (1/10)))).sum) ∧
      t2.submitted11 = true :=
  submit_score_formula c6Room "u1" ["pA", "pB"] "pA" "pB" c6Team spA spB rfl
    (by decide) rfl rfl

/-! ## Phase claims -/

theorem phaseIdx_le_three (p : Phase) : phaseIdx p ≤ 3 := by
  cases p <;> simp [phaseIdx]

theorem phase_prepareNext (r : Room) :
    (prepareNext r).1.auction.phase = r.auction.phase := by
  unfold prepareNext
  split_ifs <;> rfl

theorem phase_CAC (r : Room) :
    (checkAuctionCompletion r).1.auction.phase = r.auction.phase ∨
      (r.auction.phase = Phase.AUCTION ∧
       (checkAuctionCompletion r).1.auction.phase = Phase.SELECTION) := by
  unfold checkAuctionCompletion endAuctionPhase
  split_ifs with h
  · exact Or.inr ⟨h.1, rfl⟩
  · exact Or.inl rfl

theorem phase_closeRound (r : Room) :
    (closeRound r).1.auction.phase = r.auction.phase ∨
      (r.auction.phase = Phase.AUCTION ∧
       (closeRound r).1.auction.phase = Phase.SELECTION) := by
  rcases hb : r.auction.currentBidderId with _ | w
  · simp only [closeRound, finishBidding, finishPlayerUnsold, prepareNext,
      checkAuctionCompletion, endAuctionPhase, checkEliminations, updateTeam, getTeam,
      activeBidders, currentItemId, soldPlayerAt, idTruthy, hb]
    split_ifs <;> simp_all
  · rcases htm : lookupTeam r.teams w with _ | tm <;>
      simp only [closeRound, finishBidding, finishPlayerUnsold, prepareNext,
        checkAuctionCompletion, endAuctionPhase, checkEliminations, updateTeam, getTeam,
        activeBidders, currentItemId, soldPlayerAt, idTruthy, hb, htm] <;>
      split_ifs <;> simp_all

theorem phase_startNextPlayer (r : Room) :
    (startNextPlayer r).1.auction.phase = r.auction.phase ∨
      (r.auction.phase = Phase.AUCTION ∧
       (startNextPlayer r).1.auction.phase = Phase.SELECTION) := by
  unfold startNextPlayer startAuctionTimer endAuctionPhase
  split_ifs with h1 h2
  · exact Or.inl rfl
  · exact Or.inl rfl
  · exact Or.inr ⟨by simpa using h1, rfl⟩

theorem phase_skipForMe (r : Room) (u : String) :
    (skipForMe r u).1.auction.phase = r.auction.phase ∨
      (r.auction.phase = Phase.AUCTION ∧
       (skipForMe r u).1.auction.phase = Phase.SELECTION) := by
  unfold skipForMe
  split_ifs with h1
  · exact Or.inl rfl
  rcases ht : getTeam r u with _ | t
  · exact Or.inl rfl
  · simp only []
    split_ifs with h2 h3
    · exact Or.inl rfl
    · simpa using phase_closeRound (voteAdded r u)
    · exact Or.inl rfl

theorem phase_timerTick (r : Room) :
    (timerTick r).1.auction.phase = r.auction.phase ∨
      (r.auction.phase = Phase.AUCTION ∧
       (timerTick r).1.auction.phase = Phase.SELECTION) := by
  unfold timerTick
  by_cases h1 : r.auction.timer = false
  · rw [if_pos h1]
    exact Or.inl rfl
  · rw [if_neg h1]
    dsimp only
    by_cases h2 : r.auction.timeLeft - 1 ≤ 0
    · rw [if_pos h2]
      simpa using phase_closeRound
        { r with auction := { r.auction with timeLeft := r.auction.timeLeft - 1 } }
    · rw [if_neg h2]
      exact Or.inl rfl

theorem phase_placeBid (r : Room) (u : String) (a : ℚ) :
    (placeBid r u a).1.auction.phase = r.auction.phase := by
  unfold placeBid startAuctionTimer
  split_ifs <;> rfl

theorem phase_finishForMe (r : Room) (u : String) :
    (finishBiddingForMe r u).1.auction.phase = r.auction.phase ∨
      (r.auction.phase = Phase.AUCTION ∧
       (finishBiddingForMe r u).1.auction.phase = Phase.SELECTION) := by
  unfold finishBiddingForMe
  rcases ht : getTeam r u with _ | t
  · exact Or.inl rfl
  · simp only []
    split_ifs with h1
    · simpa using phase_CAC (updateTeam r u (fun tm => { tm with isFinishedBidding := true }))
    · exact Or.inl rfl

theorem phase_joinRoom (r : Room) (u n : String) :
    (joinRoom r u n).1.auction.phase = r.auction.phase := by
  unfold joinRoom checkEliminations
  rcases ht : getTeam r u with _ | t <;> rfl

theorem phase_startAuction (r : Room) (u : String) :
    (startAuction r u).1.auction.phase = r.auction.phase ∨
      (r.auction.phase = Phase.LOBBY ∧
       ((startAuction r u).1.auction.phase = Phase.AUCTION ∨
        (startAuction r u).1.auction.phase = Phase.SELECTION)) := by
  unfold startAuction
  split_ifs with h1 h2
  · exact Or.inl rfl
  · exact Or.inl rfl
  · rcases phase_startNextPlayer
        { r with auction := { r.auction with phase := Phase.AUCTION } } with h | h
    · exact Or.inr ⟨not_not.mp h2, Or.inl (by simpa using h)⟩
    · exact Or.inr ⟨not_not.mp h2, Or.inr (by simpa using h.2)⟩

theorem phase_submitPlaying11 (r : Room) (u : String) (ids : List String) (c vc : String) :
    (submitPlaying11 r u ids c vc).1.auction.phase = r.auction.phase ∨
      ((submitPlaying11 r u ids c vc).1.auction.phase = Phase.RESULT ∧
       ∀ p ∈ (submitPlaying11 r u ids c vc).1.teams,
         p.2.isEliminated = false → p.2.submitted11 = true) := by
  unfold submitPlaying11
  by_cases hok : submitOk r u ids c vc = true
  case neg =>
    rw [if_neg hok]
    exact Or.inl rfl
  simp only [hok, if_true]
  rcases ht : getTeam r u with _ | t
  · exact Or.inl rfl
  simp only []
  by_cases hall : ((((updateTeam r u (fun tm =>
      { tm with
        totalScore := round2 (lineupScore (selectedOf t.squad ids)
          (((selectedOf t.squad ids).find? (fun p => p.item.id == c)).getD dummySquadPlayer)
          (((selectedOf t.squad ids).find? (fun p => p.item.id == vc)).getD dummySquadPlayer)
          c vc),
        submitted11 := true, playing11 := selectedOf t.squad ids })).teams.map
      (fun p => p.2)).filter (fun tm => !tm.isEliminated)).all (fun tm => tm.submitted11)) = true
  · rw [if_pos hall]
    refine Or.inr ⟨rfl, ?_⟩
    intro p hp hel
    have hmem : p.2 ∈ (((updateTeam r u (fun tm =>
        { tm with
          totalScore := round2 (lineupScore (selectedOf t.squad ids)
            (((selectedOf t.squad ids).find? (fun p => p.item.id == c)).getD dummySquadPlayer)
            (((selectedOf t.squad ids).find? (fun p => p.item.id == vc)).getD dummySquadPlayer)
            c vc),
          submitted11 := true, playing11 := selectedOf t.squad ids })).teams.map
        (fun q => q.2)).filter (fun tm => !tm.isEliminated)) := by
      rw [List.mem_filter]
      exact ⟨List.mem_map.mpr ⟨p, hp, rfl⟩, by simp [hel]⟩
    exact List.all_eq_true.mp hall _ hmem
  · rw [if_neg hall]
    exact Or.inl rfl

theorem fst_of_pair_eq {A B : Type} {x : A × B} {a : A} {b : B} (h : x = (a, b)) :
    a = x.1 := by
  rw [h]

theorem phase_nextPlayerFire (r : Room) :
    (nextPlayerFire r).1.auction.phase = r.auction.phase ∨
      (r.auction.phase = Phase.AUCTION ∧
       (nextPlayerFire r).1.auction.phase = Phase.SELECTION) := by
  unfold nextPlayerFire
  split_ifs with h1
  · simpa using phase_startNextPlayer { r with nextPlayerTimeout := false }
  · exact Or.inl rfl

theorem phase_leaveRoom (r : Room) (u : String) (r2 : Room) (evs : List Event)
    (h : leaveRoom r u = some (r2, evs)) :
    r2.auction.phase = r.auction.phase ∨
      (r.auction.phase = Phase.AUCTION ∧ r2.auction.phase = Phase.SELECTION) := by
  unfold leaveRoom at h
  by_cases hhost : (r.hostId == u) = true
  · rw [if_pos hhost] at h
    dsimp only at h
    rcases hf : r.teams.filter (fun p => !(p.1 == u)) with _ | ⟨pr, rest⟩
    · rw [hf] at h
      exact absurd h (by simp)
    · obtain ⟨k, tm⟩ := pr
      rw [hf] at h
      have h2 := fst_of_pair_eq (Option.some.inj h)
      rw [h2]
      simpa using phase_CAC
        { hostId := k, startingPurse := r.startingPurse, teams := (k, tm) :: rest,
          auction := r.auction, lastActivity := r.lastActivity,
          nextPlayerTimeout := r.nextPlayerTimeout }
  · rw [if_neg hhost] at h
    dsimp only at h
    have h2 := fst_of_pair_eq (Option.some.inj h)
    rw [h2]
    simpa using phase_CAC
      { r with teams := r.teams.filter (fun p => !(p.1 == u)) }

theorem phase_step_helper {a b : Phase}
    (h : b = a ∨ (a = Phase.AUCTION ∧ b = Phase.SELECTION)) :
    phaseIdx a ≤ phaseIdx b ∧ (a ≠ Phase.RESULT → b ≠ Phase.RESULT) := by
  rcases h with h | ⟨h1, h2⟩
  · subst h
    exact ⟨le_refl _, fun h3 => h3⟩
  · subst h1
    subst h2
    refine ⟨by simp [phaseIdx], by simp⟩

/-- C7 counterexample: the submit-playing-11 handler is not guarded by the
phase, so with every other team eliminated a two-player lineup submitted
DURING the auction moves the room from AUCTION straight to RESULT,
skipping SELECTION. -/
theorem result_from_auction_cex :
    c7Room.auction.phase = Phase.AUCTION ∧
    (submitPlaying11 c7Room "u1" ["pA", "pB"] "pA" "pB").1.auction.phase =
      Phase.RESULT := by
  exact ⟨rfl, by decide⟩

/-- C7 (amended): across every room operation the phase index along
LOBBY, AUCTION, SELECTION, RESULT never decreases (no phase is re-entered
and none is ever left backwards), and the phase becomes RESULT only
through a lineup submission after which every non-eliminated team has
submitted; since the submission handler does not check the phase, that
transition can happen from AUCTION as well as from SELECTION. -/
theorem phase_monotone_spec :
    (∀ (op : Op) (r r2 : Room) (evs : List Event), step op r = some (r2, evs) →
       phaseIdx r.auction.phase ≤ phaseIdx r2.auction.phase) ∧
    (∀ (op : Op) (r r2 : Room) (evs : List Event), step op r = some (r2, evs) →
       r.auction.phase ≠ Phase.RESULT → r2.auction.phase = Phase.RESULT →
       (∃ u ids c vc, op = Op.submit11 u ids c vc) ∧
       (∀ p ∈ r2.teams, p.2.isEliminated = false → p.2.submitted11 = true)) := by
  constructor
  · intro op r r2 evs hstep
    cases op with
    | placeBid u a =>
        have h2 := fst_of_pair_eq (Option.some.inj hstep)
        rw [h2]
        exact (phase_step_helper (Or.inl (phase_placeBid r u a))).1
    | skip u =>
        have h2 := fst_of_pair_eq (Option.some.inj hstep)
        rw [h2]
        exact (phase_step_helper (phase_skipForMe r u)).1
    | finishForMe u =>
        have h2 := fst_of_pair_eq (Option.some.inj hstep)
        rw [h2]
        exact (phase_step_helper (phase_finishForMe r u)).1
    | submit11 u ids c vc =>
        have h2 := fst_of_pair_eq (Option.some.inj hstep)
        rw [h2]
        rcases phase_submitPlaying11 r u ids c vc with h | ⟨h, -⟩
        · rw [h]
        · rw [h]
          exact le_trans (phaseIdx_le_three _) (by simp [phaseIdx])
    | startAuction u =>
        have h2 := fst_of_pair_eq (Option.some.inj hstep)
        rw [h2]
        rcases phase_startAuction r u with h | ⟨hl, h⟩
        · rw [h]
        · rw [hl]
          rcases h with h | h <;> rw [h] <;> simp [phaseIdx]
    | join u n =>
        have h2 := fst_of_pair_eq (Option.some.inj hstep)
        rw [h2]
        exact (phase_step_helper (Or.inl (phase_joinRoom r u n))).1
    | leave u =>
        exact (phase_step_helper (phase_leaveRoom r u r2 evs hstep)).1
    | tick =>
        have h2 := fst_of_pair_eq (Option.some.inj hstep)
        rw [h2]
        exact (phase_step_helper (phase_timerTick r)).1
    | nextItem =>
        have h2 := fst_of_pair_eq (Option.some.inj hstep)
        rw [h2]
        exact (phase_step_helper (phase_nextPlayerFire r)).1
  · intro op r r2 evs hstep hne hres
    cases op with
    | placeBid u a =>
        have h2 := fst_of_pair_eq (Option.some.inj hstep)
        rw [h2] at hres
        exact absurd hres ((phase_step_helper (Or.inl (phase_placeBid r u a))).2 hne)
    | skip u =>
        have h2 := fst_of_pair_eq (Option.some.inj hstep)
        rw [h2] at hres
        exact absurd hres ((phase_step_helper (phase_skipForMe r u)).2 hne)
    | finishForMe u =>
        have h2 := fst_of_pair_eq (Option.some.inj hstep)
        rw [h2] at hres
        exact absurd hres ((phase_step_helper (phase_finishForMe r u)).2 hne)
    | submit11 u ids c vc =>
        have h2 := fst_of_pair_eq (Option.some.inj hstep)
        rcases phase_submitPlaying11 r u ids c vc with h | ⟨-, hall⟩
        · rw [h2] at hres
          rw [hres] at h
          exact absurd h.symm hne
        · refine ⟨⟨u, ids, c, vc, rfl⟩, ?_⟩
          rw [h2]
          exact hall
    | startAuction u =>
        have h2 := fst_of_pair_eq (Option.some.inj hstep)
        rw [h2] at hres
        rcases phase_startAuction r u with h | ⟨-, h | h⟩ <;> rw [hres] at h
        · exact absurd h.symm hne
        · exact absurd h (by simp)
        · exact absurd h (by simp)
    | join u n =>
        have h2 := fst_of_pair_eq (Option.some.inj hstep)
        rw [h2] at hres
        exact absurd hres ((phase_step_helper (Or.inl (phase_joinRoom r u n))).2 hne)
    | leave u =>
        exact absurd hres ((phase_step_helper (phase_leaveRoom r u r2 evs hstep)).2 hne)
    | tick =>
        have h2 := fst_of_pair_eq (Option.some.inj hstep)
        rw [h2] at hres
        exact absurd hres ((phase_step_helper (phase_timerTick r)).2 hne)
    | nextItem =>
        have h2 := fst_of_pair_eq (Option.some.inj hstep)
        rw [h2] at hres
        exact absurd hres ((phase_step_helper (phase_nextPlayerFire r)).2 hne)

theorem phase_monotone_spec_witness :
    phaseIdx c7Room.auction.phase ≤ phaseIdx (timerTick c7Room).1.auction.phase :=
  phase_monotone_spec.1 Op.tick c7Room (timerTick c7Room).1 (timerTick c7Room).2 rfl

/-! ## Elimination and purse invariant machinery -/

theorem elimMono_refl (ts : List (String × Team)) : elimMono ts ts := by
  refine ⟨?_, fun u h => h⟩
  intro u t t2 h1 h2 he
  rw [h1] at h2
  exact (Option.some.inj h2) ▸ he

theorem elimMono_mapVal (g : String × Team → Team) (ts : List (String × Team))
    (hg : ∀ p, p.2.isEliminated = true → (g p).isEliminated = true) :
    elimMono ts (mapVal g ts) := by
  constructor
  · intro u t t2 h1 h2 he
    rw [lookupTeam_mapVal] at h2
    rw [lookupTeam_def] at h1
    rcases hf : ts.find? (fun p => p.1 == u) with _ | pr
    · rw [hf] at h1
      simp at h1
    · rw [hf] at h1 h2
      have e1 : pr.2 = t := by simpa using h1
      have e2 : g pr = t2 := by simpa using h2
      rw [← e2]
      exact hg pr (by rw [e1]; exact he)
  · intro u
    rw [lookupTeam_isSome_mapVal]
    exact fun h => h

theorem elimMono_trans {a b c : List (String × Team)}
    (h1 : elimMono a b) (h2 : elimMono b c) : elimMono a c := by
  constructor
  · intro u t t2 ha hc he
    have hb : (lookupTeam b u).isSome = true := h1.2 u (by rw [ha]; rfl)
    rcases hob : lookupTeam b u with _ | t1
    · rw [hob] at hb
      simp at hb
    · exact h2.1 u t1 t2 hob hc (h1.1 u t t1 ha hob he)
  · intro u h
    exact h2.2 u (h1.2 u h)

theorem elimMono_append (ts l : List (String × Team)) : elimMono ts (ts ++ l) := by
  constructor
  · intro u t t2 h1 h2 he
    rw [lookupTeam_append_of_some ts l u t h1] at h2
    exact (Option.some.inj h2) ▸ he
  · intro u h
    rcases ho : lookupTeam ts u with _ | t
    · rw [ho] at h
      simp at h
    · rw [lookupTeam_append_of_some ts l u t ho]
      rfl

theorem elimCheckTeam_elim (t : Team) (h : t.isEliminated = true) :
    (elimCheckTeam t).isEliminated = true := by
  unfold elimCheckTeam
  split_ifs <;> simp [h]

theorem elimCheckTeam_purse (t : Team) : (elimCheckTeam t).purse = t.purse := by
  unfold elimCheckTeam
  split_ifs <;> rfl

theorem teams_CAC (r : Room) : (checkAuctionCompletion r).1.teams = r.teams := by
  unfold checkAuctionCompletion endAuctionPhase
  split_ifs <;> rfl

theorem teams_startNextPlayer (r : Room) : (startNextPlayer r).1.teams = r.teams := by
  unfold startNextPlayer startAuctionTimer endAuctionPhase
  split_ifs <;> rfl

theorem teams_placeBid (r : Room) (u : String) (a : ℚ) :
    (placeBid r u a).1.teams = r.teams := by
  unfold placeBid startAuctionTimer
  split_ifs <;> rfl

theorem teams_prepareNext (r : Room) :
    (prepareNext r).1.teams = r.teams ∨
    (prepareNext r).1.teams = mapVal (fun p => elimCheckTeam p.2) r.teams := by
  unfold prepareNext checkEliminations
  split_ifs with h
  · exact Or.inl rfl
  · exact Or.inr rfl

theorem elimMono_prepCAC (X : Room) :
    elimMono X.teams (prepareNext (checkAuctionCompletion X).1).1.teams := by
  rcases teams_prepareNext (checkAuctionCompletion X).1 with h | h <;> rw [h, teams_CAC]
  · exact elimMono_refl _
  · exact elimMono_mapVal _ _ (fun p => elimCheckTeam_elim p.2)

theorem elimMono_prepCAC2 (T : List (String × Team)) (X : Room) (hx : X.teams = T) :
    elimMono T (prepareNext (checkAuctionCompletion X).1).1.teams := by
  subst hx
  exact elimMono_prepCAC X

theorem elimMono_finishPlayerUnsold (r : Room) :
    elimMono r.teams (finishPlayerUnsold r).1.teams := by
  unfold finishPlayerUnsold
  dsimp only
  rcases teams_prepareNext
      { r with auction := { r.auction with biddingOpen := false } } with h | h <;> rw [h]
  · exact elimMono_refl _
  · exact elimMono_mapVal _ _ (fun p => elimCheckTeam_elim p.2)

theorem elimMono_fpu2 (T : List (String × Team)) (X : Room) (hx : X.teams = T) :
    elimMono T (finishPlayerUnsold X).1.teams := by
  subst hx
  exact elimMono_finishPlayerUnsold X

theorem elimMono_finishBidding (r : Room) :
    elimMono r.teams (finishBidding r).1.teams := by
  unfold finishBidding
  dsimp only
  rcases hb : r.auction.currentBidderId with _ | w
  · simp only []
    exact elimMono_prepCAC2 _ _ rfl
  · rcases htm : getTeam { r with auction :=
        { r.auction with currentBidderId := some w, biddingOpen := false } } w
        with _ | tm
    · simp only [htm]
      exact elimMono_prepCAC2 _ _ rfl
    · simp only [htm]
      split_ifs with h1 h2
      · exact elimMono_fpu2 _ _ rfl
      · exact elimMono_fpu2 _ _ rfl
      · simp only [checkEliminations, updateTeam]
        refine elimMono_trans ?_ (elimMono_prepCAC2 _ _ rfl)
        refine elimMono_trans
          (elimMono_mapVal _ _ ?_) (elimMono_mapVal _ _ (fun p => elimCheckTeam_elim p.2))
        intro p hp
        split_ifs <;> simpa using hp

theorem elimMono_fb2 (T : List (String × Team)) (X : Room) (hx : X.teams = T) :
    elimMono T (finishBidding X).1.teams := by
  subst hx
  exact elimMono_finishBidding X

theorem elimMono_closeRound (r : Room) :
    elimMono r.teams (closeRound r).1.teams := by
  unfold closeRound
  dsimp only
  split_ifs with h1
  · exact elimMono_fb2 _ _ rfl
  · exact elimMono_fpu2 _ _ rfl

theorem teams_calculateWinner (r : Room) : (calculateWinner r).1.teams = r.teams := rfl

theorem elimMono_cr2 (T : List (String × Team)) (X : Room) (hx : X.teams = T) :
    elimMono T (closeRound X).1.teams := by
  subst hx
  exact elimMono_closeRound X

theorem elimMono_skipForMe (r : Room) (u : String) :
    elimMono r.teams (skipForMe r u).1.teams := by
  unfold skipForMe
  split_ifs with h1
  · exact elimMono_refl _
  rcases ht : getTeam r u with _ | t
  · exact elimMono_refl _
  · simp only []
    split_ifs with h2 h3
    · exact elimMono_refl _
    · exact elimMono_cr2 _ _ rfl
    · exact elimMono_refl _

theorem elimMono_timerTick (r : Room) : elimMono r.teams (timerTick r).1.teams := by
  unfold timerTick
  by_cases h1 : r.auction.timer = false
  · rw [if_pos h1]
    exact elimMono_refl _
  · rw [if_neg h1]
    dsimp only
    by_cases h2 : r.auction.timeLeft - 1 ≤ 0
    · rw [if_pos h2]
      exact elimMono_cr2 _ _ rfl
    · rw [if_neg h2]
      exact elimMono_refl _

theorem elimMono_finishForMe (r : Room) (u : String) :
    elimMono r.teams (finishBiddingForMe r u).1.teams := by
  unfold finishBiddingForMe
  rcases ht : getTeam r u with _ | t
  · exact elimMono_refl _
  · simp only []
    split_ifs with h1
    · dsimp only
      rw [teams_CAC]
      simp only [updateTeam]
      refine elimMono_mapVal _ _ ?_
      intro p hp
      split_ifs <;> simpa using hp
    · exact elimMono_refl _

theorem elimMono_submit (r : Room) (u : String) (ids : List String) (c vc : String) :
    elimMono r.teams (submitPlaying11 r u ids c vc).1.teams := by
  unfold submitPlaying11
  by_cases hok : submitOk r u ids c vc = true
  case neg =>
    rw [if_neg hok]
    exact elimMono_refl _
  rw [if_pos hok]
  rcases ht : getTeam r u with _ | t
  · exact elimMono_refl _
  · simp only []
    split_ifs with hall
    · rw [teams_calculateWinner]
      simp only [updateTeam]
      refine elimMono_mapVal _ _ ?_
      intro p hp
      split_ifs <;> simpa using hp
    · simp only [updateTeam]
      refine elimMono_mapVal _ _ ?_
      intro p hp
      split_ifs <;> simpa using hp

theorem teams_startAuction (r : Room) (u : String) :
    (startAuction r u).1.teams = r.teams := by
  unfold startAuction
  split_ifs with h1 h2
  · rfl
  · rfl
  · dsimp only
    rw [teams_startNextPlayer]

theorem teams_nextPlayerFire (r : Room) : (nextPlayerFire r).1.teams = r.teams := by
  unfold nextPlayerFire
  split_ifs with h1
  · rw [teams_startNextPlayer]
  · rfl

theorem elimMono_joinRoom (r : Room) (u n : String) :
    elimMono r.teams (joinRoom r u n).1.teams := by
  unfold joinRoom checkEliminations
  rcases ht : getTeam r u with _ | t
  · simp only []
    exact elimMono_trans (elimMono_append _ _)
      (elimMono_mapVal _ _ (fun p => elimCheckTeam_elim p.2))
  · simp only []
    exact elimMono_mapVal _ _ (fun p => elimCheckTeam_elim p.2)

theorem lookupTeam_filterKey_self (ts : List (String × Team)) (uid : String) :
    lookupTeam (ts.filter (fun p => !(p.1 == uid))) uid = none := by
  induction ts with
  | nil => rfl
  | cons hd tl ih =>
      by_cases h : (hd.1 == uid) = true
      · rw [List.filter_cons, if_neg (by simp [h])]
        exact ih
      · have h2 : (hd.1 == uid) = false := by simpa using h
        rw [List.filter_cons, if_pos (by simp [h2])]
        simp only [lookupTeam, List.find?, h2]
        exact ih

theorem teams_leaveRoom (r : Room) (uid : String) (r2 : Room) (evs : List Event)
    (h : leaveRoom r uid = some (r2, evs)) :
    r2.teams = r.teams.filter (fun p => !(p.1 == uid)) := by
  unfold leaveRoom at h
  by_cases hhost : (r.hostId == uid) = true
  · rw [if_pos hhost] at h
    dsimp only at h
    rcases hf : r.teams.filter (fun p => !(p.1 == uid)) with _ | ⟨pr, rest⟩
    · rw [hf] at h
      exact absurd h (by simp)
    · obtain ⟨k, tm⟩ := pr
      rw [hf] at h
      have h2 := fst_of_pair_eq (Option.some.inj h)
      rw [h2, teams_CAC]
      exact hf.symm
  · rw [if_neg hhost] at h
    dsimp only at h
    have h2 := fst_of_pair_eq (Option.some.inj h)
    rw [h2, teams_CAC]

theorem elim_leaveRoom (r : Room) (uid : String) (r2 : Room) (evs : List Event)
    (h : leaveRoom r uid = some (r2, evs)) :
    ∀ u t t2, getTeam r u = some t → getTeam r2 u = some t2 →
      t.isEliminated = true → t2.isEliminated = true := by
  have hteams := teams_leaveRoom r uid r2 evs h
  intro u t t2 h1 h2 he
  rw [getTeam, hteams] at h2
  by_cases hu : u = uid
  · rw [hu, lookupTeam_filterKey_self] at h2
    exact absurd h2 (by simp)
  · rw [lookupTeam_filterKey _ _ _ hu] at h2
    rw [getTeam] at h1
    rw [h1] at h2
    exact (Option.some.inj h2) ▸ he

theorem getTeam_teams_eq {r1 r2 : Room} (h : r2.teams = r1.teams) (u : String) :
    getTeam r2 u = getTeam r1 u := by
  unfold getTeam
  rw [h]

theorem elimCheckTeam_iff (t : Team) :
    (elimCheckTeam t).isEliminated = true ↔
      (t.isEliminated = true ∨
       (t.purse < BID_INCREMENT ∧ t.squad.length < MIN_SQUAD_TO_PLAY)) := by
  unfold elimCheckTeam
  split_ifs with h
  · simp [h]
  · simp [h]

/-- C3: checkEliminations marks a team eliminated exactly when its purse
has dropped below the minimum bid increment while its squad is still below
the minimum playable size (or it was already eliminated), and across every
room operation an eliminated team that is still present stays eliminated:
no operation of the game ever clears the flag. -/
theorem elimination_spec :
    (∀ (r : Room) (u : String) (t : Team), getTeam r u = some t →
       ∃ t2, getTeam (checkEliminations r) u = some t2 ∧
         (t2.isEliminated = true ↔
           (t.isEliminated = true ∨
            (t.purse < BID_INCREMENT ∧ t.squad.length < MIN_SQUAD_TO_PLAY)))) ∧
    (∀ (op : Op) (r r2 : Room) (evs : List Event) (u : String) (t t2 : Team),
       step op r = some (r2, evs) → getTeam r u = some t → getTeam r2 u = some t2 →
       t.isEliminated = true → t2.isEliminated = true) := by
  constructor
  · intro r u t ht
    rw [getTeam, lookupTeam_def] at ht
    rcases hf : r.teams.find? (fun p => p.1 == u) with _ | pr
    · rw [hf] at ht
      simp at ht
    · rw [hf] at ht
      have e1 : pr.2 = t := by simpa using ht
      refine ⟨elimCheckTeam t, ?_, elimCheckTeam_iff t⟩
      show lookupTeam (mapVal (fun p => elimCheckTeam p.2) r.teams) u = some (elimCheckTeam t)
      rw [lookupTeam_mapVal, hf]
      simp [e1]
  · intro op r r2 evs u t t2 hstep h1 h2 he
    cases op with
    | placeBid v a =>
        have hr2 := fst_of_pair_eq (Option.some.inj hstep)
        rw [hr2, getTeam_teams_eq (teams_placeBid r v a) u, h1] at h2
        exact (Option.some.inj h2) ▸ he
    | skip v =>
        have hr2 := fst_of_pair_eq (Option.some.inj hstep)
        rw [hr2] at h2
        exact (elimMono_skipForMe r v).1 u t t2 h1 h2 he
    | finishForMe v =>
        have hr2 := fst_of_pair_eq (Option.some.inj hstep)
        rw [hr2] at h2
        exact (elimMono_finishForMe r v).1 u t t2 h1 h2 he
    | submit11 v ids c vc =>
        have hr2 := fst_of_pair_eq (Option.some.inj hstep)
        rw [hr2] at h2
        exact (elimMono_submit r v ids c vc).1 u t t2 h1 h2 he
    | startAuction v =>
        have hr2 := fst_of_pair_eq (Option.some.inj hstep)
        rw [hr2, getTeam_teams_eq (teams_startAuction r v) u, h1] at h2
        exact (Option.some.inj h2) ▸ he
    | join v n =>
        have hr2 := fst_of_pair_eq (Option.some.inj hstep)
        rw [hr2] at h2
        exact (elimMono_joinRoom r v n).1 u t t2 h1 h2 he
    | leave v =>
        exact elim_leaveRoom r v r2 evs hstep u t t2 h1 h2 he
    | tick =>
        have hr2 := fst_of_pair_eq (Option.some.inj hstep)
        rw [hr2] at h2
        exact (elimMono_timerTick r).1 u t t2 h1 h2 he
    | nextItem =>
        have hr2 := fst_of_pair_eq (Option.some.inj hstep)
        rw [hr2, getTeam_teams_eq (teams_nextPlayerFire r) u, h1] at h2
        exact (Option.some.inj h2) ▸ he

theorem elimination_spec_witness :
    c7ElimTeam.isEliminated = true ∧
    (∀ t2, getTeam (timerTick c7Room).1 "u2" = some t2 → t2.isEliminated = true) :=
  ⟨rfl, fun t2 h2 =>
    elimination_spec.2 Op.tick c7Room (timerTick c7Room).1 (timerTick c7Room).2
      "u2" c7ElimTeam t2 rfl rfl h2 rfl⟩

/-! ## Purse non-negativity machinery -/

theorem pursesOk_mapVal (g : String × Team → Team) (ts : List (String × Team))
    (hg : ∀ p ∈ ts, 0 ≤ p.2.purse → 0 ≤ (g p).purse) (h : pursesOk ts) :
    pursesOk (mapVal g ts) := by
  intro p hp
  obtain ⟨q, hq, rfl⟩ := List.mem_map.mp hp
  exact hg q hq (h q hq)

theorem pursesOk_elimMap (ts : List (String × Team)) (h : pursesOk ts) :
    pursesOk (mapVal (fun p => elimCheckTeam p.2) ts) :=
  pursesOk_mapVal _ _ (fun p _ hq => by rw [elimCheckTeam_purse]; exact hq) h

theorem lookupTeam_none_not_mem (ts : List (String × Team)) (u : String)
    (h : lookupTeam ts u = none) : u ∉ ts.map Prod.fst := by
  intro hm
  obtain ⟨p, hp, he⟩ := List.mem_map.mp hm
  rw [lookupTeam_def] at h
  rcases hf : ts.find? (fun q => q.1 == u) with _ | pr
  · have := List.find?_eq_none.mp hf p hp
    rw [he] at this
    simp at this
  · rw [hf] at h
    simp at h

theorem mem_lookup_of_nodup (ts : List (String × Team))
    (hnd : (ts.map Prod.fst).Nodup) (p : String × Team) (hp : p ∈ ts) :
    lookupTeam ts p.1 = some p.2 := by
  induction ts with
  | nil => cases hp
  | cons hd tl ih =>
      rw [List.map_cons, List.nodup_cons] at hnd
      rcases List.mem_cons.mp hp with rfl | hp2
      · simp [lookupTeam, List.find?]
      · have hkey : p.1 ∈ tl.map Prod.fst := List.mem_map.mpr ⟨p, hp2, rfl⟩
        have hne : (hd.1 == p.1) = false := by
          have : hd.1 ≠ p.1 := fun he => hnd.1 (he ▸ hkey)
          simpa using this
        simp only [lookupTeam, List.find?, hne]
        exact ih hnd.2 hp2

theorem pursesOk_saleUpdate (ts : List (String × Team)) (w : String)
    (f : Team → Team) (team : Team)
    (hnd : (ts.map Prod.fst).Nodup) (hlk : lookupTeam ts w = some team)
    (hf : 0 ≤ (f team).purse) (hok : pursesOk ts) :
    pursesOk (mapVal (fun p => if p.1 == w then f p.2 else p.2) ts) := by
  refine pursesOk_mapVal _ _ ?_ hok
  intro p hp hpo
  by_cases hw : (p.1 == w) = true
  · rw [if_pos hw]
    have he : p.1 = w := by simpa using hw
    have h2 := mem_lookup_of_nodup ts hnd p hp
    rw [he, hlk] at h2
    rw [← Option.some.inj h2]
    exact hf
  · rw [if_neg hw]
    exact hpo

theorem teams_checkEliminations (r : Room) :
    (checkEliminations r).teams = mapVal (fun p => elimCheckTeam p.2) r.teams := rfl

theorem teams_updateTeam (r : Room) (u : String) (f : Team → Team) :
    (updateTeam r u f).teams =
      mapVal (fun p => if p.1 == u then f p.2 else p.2) r.teams := rfl

theorem sp_prepareNext (r : Room) :
    (prepareNext r).1.startingPurse = r.startingPurse := by
  unfold prepareNext checkEliminations
  split_ifs <;> rfl

theorem sp_CAC (r : Room) :
    (checkAuctionCompletion r).1.startingPurse = r.startingPurse := by
  unfold checkAuctionCompletion endAuctionPhase
  split_ifs <;> rfl

theorem sp_startNextPlayer (r : Room) :
    (startNextPlayer r).1.startingPurse = r.startingPurse := by
  unfold startNextPlayer startAuctionTimer endAuctionPhase
  split_ifs <;> rfl

theorem sp_placeBid (r : Room) (u : String) (a : ℚ) :
    (placeBid r u a).1.startingPurse = r.startingPurse := by
  unfold placeBid startAuctionTimer
  split_ifs <;> rfl

theorem inv_teams_sp {r r2 : Room} (h : Inv r)
    (hsp : r2.startingPurse = r.startingPurse) (ht : r2.teams = r.teams) : Inv r2 := by
  refine ⟨?_, ?_, ?_⟩
  · rw [hsp]
    exact h.1
  · rw [ht]
    exact h.2.1
  · rw [ht]
    exact h.2.2

theorem inv_prepareNext (X : Room) (h : Inv X) : Inv (prepareNext X).1 := by
  rcases teams_prepareNext X with ht | ht
  · exact inv_teams_sp h (sp_prepareNext X) ht
  · refine ⟨?_, ?_, ?_⟩
    · rw [sp_prepareNext]
      exact h.1
    · rw [ht, keys_mapVal]
      exact h.2.1
    · rw [ht]
      exact pursesOk_elimMap _ h.2.2

theorem inv_CAC (X : Room) (h : Inv X) : Inv (checkAuctionCompletion X).1 :=
  inv_teams_sp h (sp_CAC X) (teams_CAC X)

theorem inv_fpu (r : Room) (h : Inv r) : Inv (finishPlayerUnsold r).1 := by
  unfold finishPlayerUnsold
  dsimp only
  exact inv_prepareNext _ h

theorem inv_finishBidding (r : Room) (h : Inv r) : Inv (finishBidding r).1 := by
  unfold finishBidding
  dsimp only
  rcases hb : r.auction.currentBidderId with _ | w
  · simp only []
    exact inv_prepareNext _ (inv_CAC _ h)
  · rcases htm : getTeam { r with auction :=
        { r.auction with currentBidderId := some w, biddingOpen := false } } w with _ | tm
    · simp only [htm]
      exact inv_prepareNext _ (inv_CAC _ h)
    · simp only [htm]
      split_ifs with h1 h2
      · exact inv_fpu _ h
      · exact inv_fpu _ h
      · refine inv_prepareNext _ (inv_CAC _ ?_)
        refine ⟨h.1, ?_, ?_⟩
        · rw [teams_checkEliminations, teams_updateTeam, keys_mapVal, keys_mapVal]
          exact h.2.1
        · rw [teams_checkEliminations, teams_updateTeam]
          dsimp only
          refine pursesOk_elimMap _ ?_
          refine pursesOk_saleUpdate r.teams w
            (fun t => { t with
              purse := round2 (t.purse - r.auction.currentBid),
              squad := t.squad ++ [soldPlayerAt
                { r with auction := { r.auction with
                    currentBidderId := some w, biddingOpen := false } }
                r.auction.currentBid] })
            tm h.2.1 htm ?_ h.2.2
          show 0 ≤ round2 (tm.purse - r.auction.currentBid)
          refine round2_nonneg _ ?_
          have h1x := not_lt.mp h1
          linarith

theorem inv_closeRound (r : Room) (h : Inv r) : Inv (closeRound r).1 := by
  unfold closeRound
  dsimp only
  split_ifs with h1
  · exact inv_finishBidding _ h
  · exact inv_fpu _ h

theorem inv_skipForMe (r : Room) (u : String) (h : Inv r) : Inv (skipForMe r u).1 := by
  unfold skipForMe
  split_ifs with h1
  · exact h
  rcases ht : getTeam r u with _ | t
  · exact h
  · simp only []
    split_ifs with h2 h3
    · exact h
    · exact inv_closeRound _ h
    · exact h

theorem inv_timerTick (r : Room) (h : Inv r) : Inv (timerTick r).1 := by
  unfold timerTick
  by_cases h1 : r.auction.timer = false
  · rw [if_pos h1]
    exact h
  · rw [if_neg h1]
    dsimp only
    by_cases h2 : r.auction.timeLeft - 1 ≤ 0
    · rw [if_pos h2]
      exact inv_closeRound _ h
    · rw [if_neg h2]
      exact h

theorem inv_finishForMe (r : Room) (u : String) (h : Inv r) :
    Inv (finishBiddingForMe r u).1 := by
  unfold finishBiddingForMe
  rcases ht : getTeam r u with _ | t
  · exact h
  · simp only []
    split_ifs with h1
    · dsimp only
      refine inv_CAC _ ⟨h.1, ?_, ?_⟩
      · rw [teams_updateTeam, keys_mapVal]
        exact h.2.1
      · rw [teams_updateTeam]
        refine pursesOk_mapVal _ _ ?_ h.2.2
        intro p hp hq
        split_ifs <;> exact hq
    · exact h

theorem inv_submit (r : Room) (u : String) (ids : List String) (c vc : String)
    (h : Inv r) : Inv (submitPlaying11 r u ids c vc).1 := by
  unfold submitPlaying11
  by_cases hok : submitOk r u ids c vc = true
  case neg =>
    rw [if_neg hok]
    exact h
  rw [if_pos hok]
  rcases ht : getTeam r u with _ | t
  · exact h
  · simp only []
    split_ifs with hall
    · refine ⟨h.1, ?_, ?_⟩
      · rw [teams_calculateWinner, teams_updateTeam, keys_mapVal]
        exact h.2.1
      · rw [teams_calculateWinner, teams_updateTeam]
        refine pursesOk_mapVal _ _ ?_ h.2.2
        intro p hp hq
        split_ifs <;> exact hq
    · refine ⟨h.1, ?_, ?_⟩
      · rw [teams_updateTeam, keys_mapVal]
        exact h.2.1
      · rw [teams_updateTeam]
        refine pursesOk_mapVal _ _ ?_ h.2.2
        intro p hp hq
        split_ifs <;> exact hq

theorem sp_startAuction (r : Room) (u : String) :
    (startAuction r u).1.startingPurse = r.startingPurse := by
  unfold startAuction
  split_ifs with h1 h2
  · rfl
  · rfl
  · dsimp only
    rw [sp_startNextPlayer]

theorem sp_nextPlayerFire (r : Room) :
    (nextPlayerFire r).1.startingPurse = r.startingPurse := by
  unfold nextPlayerFire
  split_ifs with h1
  · rw [sp_startNextPlayer]
  · rfl

theorem inv_joinRoom (r : Room) (u n : String) (h : Inv r) : Inv (joinRoom r u n).1 := by
  unfold joinRoom
  rcases ht : getTeam r u with _ | t
  · simp only []
    refine ⟨h.1, ?_, ?_⟩
    · rw [teams_checkEliminations, keys_mapVal]
      show ((r.teams ++ [(u, mkTeam u n r.startingPurse)]).map Prod.fst).Nodup
      rw [List.map_append]
      refine List.nodup_append.mpr ⟨h.2.1, by simp, ?_⟩
      intro a ha hb
      have he : a = u := by simpa using hb
      subst he
      exact lookupTeam_none_not_mem r.teams a ht ha
    · rw [teams_checkEliminations]
      refine pursesOk_elimMap _ ?_
      intro p hp
      rcases List.mem_append.mp hp with hp2 | hp2
      · exact h.2.2 p hp2
      · have he : p = (u, mkTeam u n r.startingPurse) := by simpa using hp2
        rw [he]
        exact h.1
  · simp only []
    refine ⟨h.1, ?_, ?_⟩
    · rw [teams_checkEliminations, keys_mapVal]
      exact h.2.1
    · rw [teams_checkEliminations]
      exact pursesOk_elimMap _ h.2.2

theorem sp_leaveRoom (r : Room) (uid : String) (r2 : Room) (evs : List Event)
    (h : leaveRoom r uid = some (r2, evs)) :
    r2.startingPurse = r.startingPurse := by
  unfold leaveRoom at h
  by_cases hhost : (r.hostId == uid) = true
  · rw [if_pos hhost] at h
    dsimp only at h
    rcases hf : r.teams.filter (fun p => !(p.1 == uid)) with _ | ⟨pr, rest⟩
    · rw [hf] at h
      exact absurd h (by simp)
    · obtain ⟨k, tm⟩ := pr
      rw [hf] at h
      have h2 := fst_of_pair_eq (Option.some.inj h)
      rw [h2, sp_CAC]
  · rw [if_neg hhost] at h
    dsimp only at h
    have h2 := fst_of_pair_eq (Option.some.inj h)
    rw [h2, sp_CAC]

theorem inv_leaveRoom (r : Room) (uid : String) (r2 : Room) (evs : List Event)
    (h : Inv r) (hstep : leaveRoom r uid = some (r2, evs)) : Inv r2 := by
  have hteams := teams_leaveRoom r uid r2 evs hstep
  refine ⟨?_, ?_, ?_⟩
  · rw [sp_leaveRoom r uid r2 evs hstep]
    exact h.1
  · rw [hteams]
    refine List.Nodup.sublist ?_ h.2.1
    exact List.Sublist.map Prod.fst (List.filter_sublist r.teams)
  · rw [hteams]
    intro p hp
    exact h.2.2 p (List.mem_of_mem_filter hp)

theorem inv_createRoom (hostId teamName : String) (p : ℚ) (pool : List CatalogItem)
    (now : ℤ) : Inv (createRoom hostId teamName p pool now) := by
  have hc : (0:ℚ) ≤ max 50 (min 500 p) := le_trans (by norm_num) (le_max_left _ _)
  refine ⟨hc, by simp [createRoom], ?_⟩
  intro q hq
  have he : q = (hostId, mkTeam hostId teamName (max 50 (min 500 p))) := by
    simpa [createRoom] using hq
  rw [he]
  exact hc

theorem inv_step (op : Op) (r r2 : Room) (evs : List Event) (h : Inv r)
    (hstep : step op r = some (r2, evs)) : Inv r2 := by
  cases op with
  | placeBid u a =>
      have hr2 := fst_of_pair_eq (Option.some.inj hstep)
      rw [hr2]
      exact inv_teams_sp h (sp_placeBid r u a) (teams_placeBid r u a)
  | skip u =>
      have hr2 := fst_of_pair_eq (Option.some.inj hstep)
      rw [hr2]
      exact inv_skipForMe r u h
  | finishForMe u =>
      have hr2 := fst_of_pair_eq (Option.some.inj hstep)
      rw [hr2]
      exact inv_finishForMe r u h
  | submit11 u ids c vc =>
      have hr2 := fst_of_pair_eq (Option.some.inj hstep)
      rw [hr2]
      exact inv_submit r u ids c vc h
  | startAuction u =>
      have hr2 := fst_of_pair_eq (Option.some.inj hstep)
      rw [hr2]
      exact inv_teams_sp h (sp_startAuction r u) (teams_startAuction r u)
  | join u n =>
      have hr2 := fst_of_pair_eq (Option.some.inj hstep)
      rw [hr2]
      exact inv_joinRoom r u n h
  | leave u =>
      exact inv_leaveRoom r u r2 evs h hstep
  | tick =>
      have hr2 := fst_of_pair_eq (Option.some.inj hstep)
      rw [hr2]
      exact inv_timerTick r h
  | nextItem =>
      have hr2 := fst_of_pair_eq (Option.some.inj hstep)
      rw [hr2]
      exact inv_teams_sp h (sp_nextPlayerFire r) (teams_nextPlayerFire r)

theorem reachable_inv (r : Room) (h : Reachable r) : Inv r := by
  induction h with
  | init h n p pool now => exact inv_createRoom h n p pool now
  | next r op r2 evs hr hstep ih => exact inv_step op r r2 evs ih hstep

/-- C4: in every room state reachable from room creation through the game
operations every team's purse is non-negative; in particular whenever a
sale is applied by finishBidding to a room satisfying the state invariant,
every resulting purse (the buyer's included, after deducting the final
price and appending the sold player) is still at least zero. -/
theorem purse_nonneg_spec :
    (∀ r, Reachable r → ∀ u (t : Team), getTeam r u = some t → 0 ≤ t.purse) ∧
    (∀ r, Inv r → ∀ u (t : Team), getTeam (finishBidding r).1 u = some t → 0 ≤ t.purse) := by
  have hmem : ∀ (ts : List (String × Team)) u (t : Team),
      lookupTeam ts u = some t → pursesOk ts → 0 ≤ t.purse := by
    intro ts u t hl hok
    rw [lookupTeam_def] at hl
    rcases hf : ts.find? (fun p => p.1 == u) with _ | pr
    · rw [hf] at hl
      simp at hl
    · rw [hf] at hl
      have hm := List.mem_of_find?_eq_some hf
      have he : pr.2 = t := by simpa using hl
      rw [← he]
      exact hok pr hm
  constructor
  · intro r hr u t ht
    exact hmem r.teams u t ht (reachable_inv r hr).2.2
  · intro r hinv u t ht
    exact hmem _ u t ht (inv_finishBidding r hinv).2.2

theorem purse_nonneg_spec_witness :
    0 ≤ (mkTeam "h" "Tigers" (max 50 (min 500 (100:ℚ)))).purse :=
  purse_nonneg_spec.1 (createRoom "h" "Tigers" 100 [] 0)
    (Reachable.init "h" "Tigers" 100 [] 0) "h"
    (mkTeam "h" "Tigers" (max 50 (min 500 100))) rfl

end CricketAuction
